import Mathlib

/-!
Shallow embedding of the pyld incremental build engine (src/pyld.py).

The embedding models:
  - the entity registries (`Env.targets`, `Env.external_dependencies`),
  - the filesystem as an association list from paths to modification
    timestamps (integers; a missing file has no entry, and
    `_get_opt_mod_time` yields the sentinel -1 as in the source),
  - the command executor as an external collaborator: dispatching a
    compile command creates the object file, dispatching an archive/link
    command creates the target's output artifact, each at the current
    clock value (`S.now`), which then advances,
  - console reports and dispatched commands as a trace of structured
    events (`S.events`); each dispatched command records the name of the
    target whose build step issued it,
  - fatal errors (`_error` / `assert False` in the source) as the error
    case of `Except String`; recursion is fuelled because the source
    performs unbounded recursion on cyclic dependency graphs.

Functions keep the names of the Python source where possible:
`_strip_extension`, `_change_extension`, `_get_opt_mod_time`,
`_cmp_timestamp`, `get_out_path`, `_opt_build`, `build`, `clean`.
The two loops of `Target._opt_build` (dependency walk, source-file walk)
and the archive/link step are split into the helper definitions
`buildDepsAux`, `buildSources`, `collectLink` / `linkArgs` / `linkStep`,
composed in `_opt_build` exactly in the order of the source.
-/

namespace Pyld

/-- `TargetType` (src/pyld.py lines 80-83). -/
inductive TargetType where
  | EXECUTABLE
  | STATIC_LIB
  | DYNAMIC_LIB
  deriving Repr, DecidableEq

/-- `ExtDepType` (src/pyld.py lines 85-88). -/
inductive ExtDepType where
  | STATIC_LIB
  | DYNAMIC_LIB
  | SYSTEM_LIB
  deriving Repr, DecidableEq

/-- `ExtDep` (src/pyld.py lines 90-95): name, type and artifact directory. -/
structure ExtDep where
  name : String
  type : ExtDepType
  path : String
  deriving Repr, DecidableEq

/-- `Target` (src/pyld.py lines 97-106). -/
structure Target where
  name : String
  type : TargetType
  output_dir : String
  deps : List String
  sources : List String
  flags : List String
  incdirs : List String
  deriving Repr, DecidableEq

/-- The global registries and compiler setting (src/pyld.py lines 6-8),
gathered into one environment value.  Registries are association lists
keyed by name, as the Python dictionaries are. -/
structure Env where
  c_compiler : String
  targets : List (String × Target)
  external_dependencies : List (String × ExtDep)
  deriving Repr, DecidableEq

/-- One observable step of a build or clean run: a console report or a
dispatched command.  Command events record the name of the target whose
build/clean step dispatched them. -/
inductive Event where
  | checkingDep (name : String)
  | compiling (target : String) (source : String)
  | sourceUpToDate (target : String) (source : String)
  | buildingTarget (name : String)
  | targetUpToDate (name : String)
  | completed (name : String)
  | cleaning (name : String)
  | compileCmd (target : String) (args : List String)
  | linkCmd (target : String) (args : List String)
  | rmCmd (target : String) (args : List String)
  deriving Repr, DecidableEq

/-- The mutable world threaded through a build: the filesystem (newest
entry first; `List.lookup` returns the newest entry for a path), the
clock used to stamp files written by dispatched commands, and the event
trace. -/
structure S where
  fs : List (String × Int)
  now : Int
  events : List Event
  deriving Repr, DecidableEq

def S.addEvent (st : S) (e : Event) : S :=
  { st with events := st.events ++ [e] }

/-- Effect of the command executor creating or overwriting file `p`:
it receives the current clock value as modification time and the clock
advances. -/
def S.write (st : S) (p : String) : S :=
  { st with fs := (p, st.now) :: st.fs, now := st.now + 1 }

/-- Effect of the command executor running `rm -f` on the paths `ps`. -/
def S.removeFiles (st : S) (ps : List String) : S :=
  { st with fs := st.fs.filter (fun e => !(ps.contains e.1)) }

def _object_ext : String := ".o"
def _dynamic_ext : String := ".so"
def _static_ext : String := ".a"

/-- `_strip_extension` (src/pyld.py lines 31-32): `path.split(".")[0]`,
i.e. the prefix of the path before its first dot. -/
def _strip_extension (path : String) : String :=
  String.mk (path.data.takeWhile (fun c => c ≠ '.'))

/-- `_change_extension` (src/pyld.py lines 37-38). -/
def _change_extension (path : String) (ext : String) : String :=
  _strip_extension path ++ ext

/-- `_target_type_to_extension` (src/pyld.py lines 40-49). -/
def _target_type_to_extension (type : TargetType) : String :=
  match type with
  | .EXECUTABLE => ""
  | .STATIC_LIB => _static_ext
  | .DYNAMIC_LIB => _dynamic_ext

/-- `_get_opt_mod_time` (src/pyld.py lines 51-54): the file's
modification time, or -1.0 when the file does not exist. -/
def _get_opt_mod_time (fs : List (String × Int)) (path : String) : Int :=
  match fs.lookup path with
  | some t => t
  | none => -1

/-- `_cmp_timestamp` (src/pyld.py lines 56-57). -/
def _cmp_timestamp (t1 : Int) (t2 : Int) : Bool :=
  decide (t1 < 0) || decide (t1 > t2)

/-- `Target.get_out_path` (src/pyld.py lines 117-121). -/
def get_out_path (t : Target) : String :=
  if 0 < t.output_dir.length then
    t.output_dir ++ "/" ++ t.name ++ _target_type_to_extension t.type
  else
    t.name ++ _target_type_to_extension t.type

/-- Argument list of the compile command synthesized for one source file
(src/pyld.py lines 178-187). -/
def compileArgs (env : Env) (t : Target) (source : String) : List String :=
  [env.c_compiler]
    ++ (if t.type = TargetType.DYNAMIC_LIB then ["-fPIC"] else [])
    ++ ["-c", source]
    ++ t.flags
    ++ t.incdirs.map (fun I => "-I" ++ I)
    ++ ["-o", _change_extension source _object_ext]

/-- The source-file loop of `Target._opt_build` (src/pyld.py lines
170-191): walk the sources in order; a missing source is a fatal error;
a source is recompiled when it is stale relative to `tts`, its object
file is missing, or `force` is set.  Returns whether any source was
recompiled. -/
def buildSources (env : Env) (t : Target) (force : Bool) (tts : Int) :
    List String → S → S × Except String Bool
  | [], st => (st, .ok false)
  | source :: rest, st =>
    let obj := _change_extension source _object_ext
    if (st.fs.lookup source).isNone then
      (st, .error ("Could not find source file " ++ source))
    else if _cmp_timestamp (_get_opt_mod_time st.fs source) tts
        || (st.fs.lookup obj).isNone || force then
      let st := st.addEvent (.compiling t.name source)
      let st := st.addEvent (.compileCmd t.name (compileArgs env t source))
      let st := st.write obj
      match buildSources env t force tts rest st with
      | (st', .ok _) => (st', .ok true)
      | e => e
    else
      buildSources env t force tts rest (st.addEvent (.sourceUpToDate t.name source))

/-- The dependency walk of the archive/link step (src/pyld.py lines
199-230): starting from the target's own object list, each dependency
name is resolved; a registered StaticLib target contributes its output
path to the object list, a registered Executable or DynamicLib target is
a fatal error; an external StaticLib contributes `<path>/<name>.a` to
the object list, an external SystemLib contributes `-l<name>` to the
link flags, and an external DynamicLib falls into the unknown-type fatal
error of the source's wildcard case. -/
def collectLink (env : Env) : List String → List String × List String →
    Except String (List String × List String)
  | [], acc => .ok acc
  | d :: rest, (objs, links) =>
    match env.targets.lookup d with
    | some dep =>
      match dep.type with
      | .EXECUTABLE => .error "Can't have executable as dependency"
      | .STATIC_LIB => collectLink env rest (objs ++ [get_out_path dep], links)
      | .DYNAMIC_LIB =>
        .error "Using TargetType.DYNAMIC_LIB as dependency is not supported yet"
    | none =>
      match env.external_dependencies.lookup d with
      | some dep =>
        match dep.type with
        | .STATIC_LIB =>
          collectLink env rest (objs ++ [dep.path ++ "/" ++ dep.name ++ _static_ext], links)
        | .SYSTEM_LIB => collectLink env rest (objs, links ++ ["-l" ++ dep.name])
        | .DYNAMIC_LIB => .error "Unknown external dependency type"
      | none => .error ("Unknown dependency: " ++ d)

/-- Final assembly of the archive/link argument list by target type
(src/pyld.py lines 195-197 and 232-251).  The argument list starts as
`<compiler> <flags...> <objects...>`; an Executable appends
`-o <output> <link-flags...>`, a StaticLib discards it and builds
`ar rcs <output> <objects...>`, and a DynamicLib appends
`-shared -o -fPIC <output>` (in exactly that source order). -/
def linkArgs (env : Env) (t : Target) (objs : List String) (links : List String) :
    List String :=
  match t.type with
  | .EXECUTABLE =>
    [env.c_compiler] ++ t.flags ++ objs ++ ["-o", get_out_path t] ++ links
  | .STATIC_LIB => ["ar", "rcs", get_out_path t] ++ objs
  | .DYNAMIC_LIB =>
    [env.c_compiler] ++ t.flags ++ objs ++ ["-shared", "-o", "-fPIC", get_out_path t]

/-- The archive/link step (src/pyld.py lines 193-255), taken when the
rebuild decision or the force flag is set: report, resolve the
dependency contributions, dispatch the synthesized command (the executor
produces the output artifact) and report completion. -/
def linkStep (env : Env) (t : Target) (st : S) : S × Except String Unit :=
  let st := st.addEvent (.buildingTarget t.name)
  let objs0 := t.sources.map (fun s => _change_extension s ".o")
  match collectLink env t.deps (objs0, []) with
  | .ok (objs, links) =>
    let st := st.addEvent (.linkCmd t.name (linkArgs env t objs links))
    let st := st.write (get_out_path t)
    (st.addEvent (.completed t.name), .ok ())
  | .error m => (st, .error m)

/-- The dependency loop of `Target._opt_build` (src/pyld.py lines
156-167): each dependency name resolving to a registered target is
rebuilt recursively through `build1` and the returned rebuild flags are
OR-ed together; external dependencies are skipped; an unresolvable name
is a fatal error. -/
def buildDepsAux (build1 : Target → S → S × Except String Bool) (env : Env) :
    List String → S → S × Except String Bool
  | [], st => (st, .ok false)
  | d :: rest, st =>
    match env.targets.lookup d with
    | some dep =>
      match build1 dep (st.addEvent (.checkingDep d)) with
      | (st1, .ok r) =>
        match buildDepsAux build1 env rest st1 with
        | (st2, .ok r2) => (st2, .ok (r || r2))
        | e => e
      | e => e
    | none =>
      match env.external_dependencies.lookup d with
      | some _ => buildDepsAux build1 env rest st
      | none => (st, .error ("Unknown Dependency: " ++ d))

/-- `Target._opt_build` (src/pyld.py lines 148-259).  The `timestamp`
parameter mirrors the source's parameter of the same name; the body -
like the source - never reads it: all staleness comparisons use
`target_timestamp`, the modification time of this target's own output,
recomputed at entry.  Fuel bounds the recursion depth (the source
recurses unboundedly on cyclic graphs). -/
def _opt_build (env : Env) : Nat → Target → Bool → Int → S → S × Except String Bool
  | 0, _, _, _, st => (st, .error "recursion fuel exhausted")
  | fuel + 1, t, force, timestamp, st =>
    let target_timestamp := _get_opt_mod_time st.fs (get_out_path t)
    match buildDepsAux (fun dep st0 => _opt_build env fuel dep force target_timestamp st0)
        env t.deps st with
    | (st1, .ok depReb) =>
      match buildSources env t force target_timestamp t.sources st1 with
      | (st2, .ok srcReb) =>
        let rebuild := decide (target_timestamp < 0) || depReb || srcReb
        if rebuild || force then
          match linkStep env t st2 with
          | (st3, .ok _) => (st3, .ok rebuild)
          | (st3, .error m) => (st3, .error m)
        else
          (st2.addEvent (.targetUpToDate t.name), .ok rebuild)
      | (st2, .error m) => (st2, .error m)
    | (st1, .error m) => (st1, .error m)

/-- `Target.build` (src/pyld.py lines 140-144): the public entry point;
it invokes `_opt_build` with the force flag and the output's current
modification time (the elapsed-time report is presentation and is not
modelled). -/
def build (env : Env) (fuel : Nat) (t : Target) (force : Bool) (st : S) :
    S × Except String Bool :=
  _opt_build env fuel t force (_get_opt_mod_time st.fs (get_out_path t)) st

/-- Argument list of the removal command synthesized by `Target.clean`
(src/pyld.py lines 128-132): `rm -f <output> <objects...>`, covering the
output artifact and every source file's corresponding object file. -/
def rmArgs (t : Target) : List String :=
  ["rm", "-f", get_out_path t] ++ t.sources.map (fun s => _change_extension s _object_ext)

/-- The dependency loop of `Target.clean` (src/pyld.py lines 135-138):
recursively clean every dependency name that resolves to a registered
target; other names are skipped silently. -/
def cleanDepsAux (clean1 : Target → S → Option S) (env : Env) :
    List String → S → Option S
  | [], st => some st
  | d :: rest, st =>
    match env.targets.lookup d with
    | some dep =>
      match clean1 dep st with
      | some st1 => cleanDepsAux clean1 env rest st1
      | none => none
    | none => cleanDepsAux clean1 env rest st

/-- `Target.clean` (src/pyld.py lines 126-138): report, dispatch one
removal command covering the output artifact and all object files (the
executor removes those files), then recurse into registered-target
dependencies.  Fuel bounds the recursion depth. -/
def clean (env : Env) : Nat → Target → S → Option S
  | 0, _, _ => none
  | fuel + 1, t, st =>
    let st := st.addEvent (.cleaning t.name)
    let st := st.addEvent (.rmCmd t.name (rmArgs t))
    let st := st.removeFiles (get_out_path t :: t.sources.map (fun s => _change_extension s _object_ext))
    cleanDepsAux (fun dep st0 => clean env fuel dep st0) env t.deps st

/-- Modelled from the spec: section 4.4's intended DynamicLib link
command form, "compiler, flags, objects, -shared, -fPIC, -o, output",
with the object list and -fPIC preceding "-o output". -/
def spec_dynamiclib_link_args (env : Env) (t : Target) (objs : List String) :
    List String :=
  [env.c_compiler] ++ t.flags ++ objs ++ ["-shared", "-fPIC", "-o", get_out_path t]

/-- Modelled from the spec: "Object path is the source path with its
extension replaced by the object extension", reading "extension" in the
conventional way as the suffix after the last dot of the path (and, for
a path with no dot, appending the object extension). -/
def spec_object_path (path : String) : String :=
  if path.data.contains '.' then
    String.mk (((path.data.reverse.dropWhile (fun c => c ≠ '.')).drop 1).reverse) ++ _object_ext
  else
    path ++ _object_ext

/-- The file paths a build of target `t` may write: the output artifact
(written by the archive/link step) and the object file of each source
(written by compile steps). -/
def writtenOf (t : Target) : List String :=
  get_out_path t :: t.sources.map (fun s => _change_extension s _object_ext)

/-- All paths that builds of registered targets may write. -/
def writtenPaths (env : Env) : List String :=
  (env.targets.map (fun e => writtenOf e.2)).flatten

/-- All declared source paths: those of `root` and of every registered
target. -/
def allSourcePaths (env : Env) (root : Target) : List String :=
  root.sources ++ (env.targets.map (fun e => e.2.sources)).flatten

/-- Separation of inputs from build products: no declared source file
path coincides with a path some build step may write (an object file or
an output artifact). -/
def Separated (env : Env) (root : Target) : Prop :=
  ∀ u ∈ allSourcePaths env root, u ∉ writtenOf root ++ writtenPaths env

/-- A well-formed world: the clock is nonnegative and every recorded
modification time is nonnegative and in the past of the clock (no file
is dated in the future). -/
def ValidS (st : S) : Prop :=
  0 ≤ st.now ∧ ∀ e ∈ st.fs, 0 ≤ e.2 ∧ e.2 < st.now

/-- How a build run may change the world: the clock only advances, the
event trace only grows, files outside `W` are untouched, and existing
files are never deleted nor dated backwards. -/
def Progress (W : List String) (st st' : S) : Prop :=
  st.now ≤ st'.now ∧
  (∃ Δ, st'.events = st.events ++ Δ) ∧
  (∀ p, p ∉ W → st'.fs.lookup p = st.fs.lookup p) ∧
  (∀ p v, st.fs.lookup p = some v → ∃ v', st'.fs.lookup p = some v' ∧ v ≤ v')

/-- Up-to-dateness of a target subgraph in filesystem `fs`, to recursion
depth `fuel`: the output artifact exists, every source exists, is no
newer than the output and has its object file present, and every
dependency resolves, recursively up to date when it is a registered
target. -/
def UpToDate (env : Env) : Nat → List (String × Int) → Target → Prop
  | 0, _, _ => False
  | fuel + 1, fs, t =>
    (∃ T, fs.lookup (get_out_path t) = some T ∧ 0 ≤ T ∧
      ∀ u ∈ t.sources,
        (∃ τ, fs.lookup u = some τ ∧ 0 ≤ τ ∧ τ ≤ T) ∧
        (fs.lookup (_change_extension u _object_ext)).isSome) ∧
    (∀ d ∈ t.deps,
      match env.targets.lookup d with
      | some dep => UpToDate env fuel fs dep
      | none => (env.external_dependencies.lookup d).isSome)

/-- Events that report up-to-dateness or progress through the walk, as
opposed to dispatched commands and rebuild reports. -/
def benign (e : Event) : Bool :=
  match e with
  | .checkingDep _ => true
  | .sourceUpToDate _ _ => true
  | .targetUpToDate _ => true
  | _ => false

/-- Name `n` transitively depends on the name `bad` through the
dependency lists of registered targets. -/
inductive Reaches (env : Env) (bad : String) : String → Prop
  | base (n : String) (tg : Target) :
      env.targets.lookup n = some tg → bad ∈ tg.deps → Reaches env bad n
  | step (n : String) (tg : Target) (d : String) :
      env.targets.lookup n = some tg → d ∈ tg.deps → Reaches env bad d →
      Reaches env bad n

/-- Target `t` transitively depends on the name `bad`. -/
def TargetReaches (env : Env) (bad : String) (t : Target) : Prop :=
  bad ∈ t.deps ∨ ∃ d ∈ t.deps, Reaches env bad d

/-- The output artifact paths of the dependencies that resolve to
registered StaticLib targets, in declared dependency order. -/
def regStaticOuts (env : Env) (deps : List String) : List String :=
  deps.filterMap (fun d =>
    match env.targets.lookup d with
    | some dep =>
      match dep.type with
      | .STATIC_LIB => some (get_out_path dep)
      | _ => none
    | none => none)

/-- Events a build may not contain once the target named `bad` has a
missing source file: no link command of `bad` itself, and no compile or
link command of any name that transitively depends on `bad`. -/
def NoBadEvents (env : Env) (bad : String) (Δ : List Event) : Prop :=
  (∀ args, Event.linkCmd bad args ∉ Δ) ∧
  (∀ n args, Reaches env bad n →
    Event.compileCmd n args ∉ Δ ∧ Event.linkCmd n args ∉ Δ)

/-! Basic lemmas about association-list lookup. -/

theorem lookup_cons {α β : Type} [BEq α] (e : α × β) (l : List (α × β)) (k : α) :
    List.lookup k (e :: l) = if k == e.1 then some e.2 else List.lookup k l := by
  rcases e with ⟨a, b⟩
  rw [List.lookup]
  by_cases h : k == a
  · simp [h]
  · simp [h]

theorem lookup_mem {α β : Type} [BEq α] [LawfulBEq α] (l : List (α × β)) (k : α) (v : β)
    (h : l.lookup k = some v) : (k, v) ∈ l := by
  induction l with
  | nil => simp [List.lookup] at h
  | cons e rest ih =>
    rw [lookup_cons] at h
    by_cases hk : k == e.1
    · rw [if_pos hk] at h
      have h1 : k = e.1 := eq_of_beq hk
      have h2 : e.2 = v := by injection h
      have h3 : (k, v) = e := by
        rcases e with ⟨a, b⟩
        simp at h1 h2 ⊢
        exact ⟨h1, h2.symm⟩
      rw [h3]
      exact List.mem_cons_self _ _
    · rw [if_neg hk] at h
      exact List.mem_cons_of_mem _ (ih h)

/-! Structure of a successful archive/link step. -/

theorem linkStep_ok_decomp (env : Env) (t : Target) (st st' : S) (u : Unit)
    (h : linkStep env t st = (st', .ok u)) :
    ∃ objs links,
      collectLink env t.deps (t.sources.map (fun s => _change_extension s ".o"), []) =
        .ok (objs, links) ∧
      st'.fs = (get_out_path t, st.now) :: st.fs ∧
      st'.now = st.now + 1 ∧
      st'.events = st.events ++
        [.buildingTarget t.name, .linkCmd t.name (linkArgs env t objs links),
         .completed t.name] := by
  simp only [linkStep] at h
  rcases hc : collectLink env t.deps (t.sources.map (fun s => _change_extension s ".o"), [])
    with m | ⟨objs, links⟩
  · rw [hc] at h
    simp at h
  · rw [hc] at h
    refine ⟨objs, links, rfl, ?_⟩
    have h1 : st' = (((st.addEvent (.buildingTarget t.name)).addEvent
        (.linkCmd t.name (linkArgs env t objs links))).write
        (get_out_path t)).addEvent (.completed t.name) := by
      injection h with h1 h2
      exact h1.symm
    subst h1
    simp [S.addEvent, S.write]

/-! Claim C1. -/

/-- C1: for a DynamicLib target whose rebuild decision is true, the code
does NOT synthesize the spec's intended link command
`compiler flags objects -shared -fPIC -o output`.  Evaluating the build
of a concrete DynamicLib target shows the dispatched link command is
`gcc -O2 foo.o -shared -o -fPIC libfoo.so`: the objects and flags are
present, but `-o` precedes `-fPIC`, so the command differs from the
intended form (which this development renders as
`spec_dynamiclib_link_args`) exactly in the order of those two
arguments. -/
theorem C1_dynamiclib_link_command_bug :
    (_opt_build (Env.mk "gcc"
        [("libfoo", Target.mk "libfoo" .DYNAMIC_LIB "" [] ["foo.c"] ["-O2"] ["inc"])] [])
        3 (Target.mk "libfoo" .DYNAMIC_LIB "" [] ["foo.c"] ["-O2"] ["inc"])
        false (-1) (S.mk [("foo.c", 0)] 10 [])).1.events =
      [.compiling "libfoo" "foo.c",
       .compileCmd "libfoo" ["gcc", "-fPIC", "-c", "foo.c", "-O2", "-Iinc", "-o", "foo.o"],
       .buildingTarget "libfoo",
       .linkCmd "libfoo" ["gcc", "-O2", "foo.o", "-shared", "-o", "-fPIC", "libfoo.so"],
       .completed "libfoo"] ∧
    spec_dynamiclib_link_args (Env.mk "gcc"
        [("libfoo", Target.mk "libfoo" .DYNAMIC_LIB "" [] ["foo.c"] ["-O2"] ["inc"])] [])
        (Target.mk "libfoo" .DYNAMIC_LIB "" [] ["foo.c"] ["-O2"] ["inc"]) ["foo.o"] =
      ["gcc", "-O2", "foo.o", "-shared", "-fPIC", "-o", "libfoo.so"] ∧
    (["gcc", "-O2", "foo.o", "-shared", "-o", "-fPIC", "libfoo.so"] ≠
      ["gcc", "-O2", "foo.o", "-shared", "-fPIC", "-o", "libfoo.so"]) := by
  exact ⟨rfl, rfl, by decide⟩

/-! Claim C2. -/

/-- C2 counterexample: the dependency's staleness evaluation does not
use the passed-down timestamp.  Parent "p" has output timestamp 5;
its registered dependency "d" has its own output at timestamp 10, a
source "u.c" at timestamp 7 with its object present.  Relative to the
passed-down reference 5 the source IS stale (`_cmp_timestamp 7 5`), so
under the claim the dependency would recompile "u.c"; the code instead
compares against the dependency's own output timestamp 10, issues no
command at all, and reports everything up to date. -/
theorem C2_counterexample :
    build (Env.mk "gcc"
        [("p", Target.mk "p" .EXECUTABLE "" ["d"] [] [] []),
         ("d", Target.mk "d" .STATIC_LIB "" [] ["u.c"] [] [])] [])
        3 (Target.mk "p" .EXECUTABLE "" ["d"] [] [] []) false
        (S.mk [("p", 5), ("d.a", 10), ("u.c", 7), ("u.o", 1)] 20 []) =
      (S.mk [("p", 5), ("d.a", 10), ("u.c", 7), ("u.o", 1)] 20
        [.checkingDep "d", .sourceUpToDate "d" "u.c", .targetUpToDate "d",
         .targetUpToDate "p"], .ok false) ∧
    _cmp_timestamp 7 5 = true := by
  exact ⟨rfl, rfl⟩

/-- C2 (amended): the recursive build of a registered dependency
receives the force flag and the parent's output timestamp and its
returned flag is OR-ed into the parent's rebuild decision, but the
passed-down timestamp has no effect whatsoever on the result: the
dependency recomputes and uses its own output's modification time as the
staleness reference.  Formally: (1) `_opt_build` is independent of its
timestamp argument; (2) when the dependency walk returns the OR `dr` of
the recursive rebuild flags and the source walk returns `sr`, the flag
returned by a successful build is exactly
`(own output missing) OR dr OR sr`. -/
theorem C2_timestamp_ignored_flag_or :
    (∀ (env : Env) (fuel : Nat) (t : Target) (force : Bool) (ts ts' : Int) (st : S),
      _opt_build env fuel t force ts st = _opt_build env fuel t force ts' st) ∧
    (∀ (env : Env) (fuel : Nat) (t : Target) (force : Bool) (ts : Int)
        (st st1 st2 st' : S) (dr sr b : Bool),
      buildDepsAux (fun dep st0 =>
          _opt_build env fuel dep force (_get_opt_mod_time st.fs (get_out_path t)) st0)
        env t.deps st = (st1, .ok dr) →
      buildSources env t force (_get_opt_mod_time st.fs (get_out_path t)) t.sources st1 =
        (st2, .ok sr) →
      _opt_build env (fuel + 1) t force ts st = (st', .ok b) →
      b = (decide (_get_opt_mod_time st.fs (get_out_path t) < 0) || dr || sr)) := by
  constructor
  · intro env fuel t force ts ts' st
    cases fuel <;> rfl
  · intro env fuel t force ts st st1 st2 st' dr sr b h1 h2 h3
    simp only [_opt_build] at h3
    rw [h1] at h3
    simp only at h3
    rw [h2] at h3
    simp only at h3
    by_cases hif : (decide (_get_opt_mod_time st.fs (get_out_path t) < 0) || dr || sr || force) = true
    · rw [if_pos hif] at h3
      rcases hl : linkStep env t st2 with ⟨st3, r3⟩
      rw [hl] at h3
      cases r3 with
      | ok u => injection h3 with ha hb; injection hb with hb; exact hb.symm
      | error m => simp at h3
    · rw [if_neg hif] at h3
      injection h3 with ha hb
      injection hb with hb
      exact hb.symm

/-- C2 witness: the amended theorem applied at a concrete input — a
target with no dependencies and no sources whose output is missing. -/
theorem C2_timestamp_ignored_flag_or_witness :
    _opt_build (Env.mk "cc" [] []) 1 (Target.mk "w" .EXECUTABLE "" [] [] [] [])
        false 0 (S.mk [] 0 []) =
      _opt_build (Env.mk "cc" [] []) 1 (Target.mk "w" .EXECUTABLE "" [] [] [] [])
        false 99 (S.mk [] 0 []) ∧
    true = (decide (_get_opt_mod_time (S.mk ([] : List (String × Int)) 0 []).fs
        (get_out_path (Target.mk "w" .EXECUTABLE "" [] [] [] [])) < 0) || false || false) := by
  constructor
  · exact C2_timestamp_ignored_flag_or.1 (Env.mk "cc" [] []) 1
      (Target.mk "w" .EXECUTABLE "" [] [] [] []) false 0 99 (S.mk [] 0 [])
  · exact C2_timestamp_ignored_flag_or.2 (Env.mk "cc" [] []) 0
      (Target.mk "w" .EXECUTABLE "" [] [] [] []) false 0
      (S.mk [] 0 []) (S.mk [] 0 []) (S.mk [] 0 []) _ false false true
      (by rfl) (by rfl) (by rfl)

/-! Claim C10. -/

/-- C10: for a target with no source files whose output exists (the
recorded modification time is nonnegative) and none of whose
dependencies rebuild, a forced recursive build step dispatches the
archive/link command yet returns a rebuild flag of `false`: the returned
flag never reflects the force flag alone. -/
theorem C10_force_relink_returns_false
    (env : Env) (fuel : Nat) (t : Target) (ts : Int) (st st1 st3 : S) (u : Unit)
    (hsrc : t.sources = [])
    (hout : 0 ≤ _get_opt_mod_time st.fs (get_out_path t))
    (hdeps : buildDepsAux (fun dep st0 =>
        _opt_build env fuel dep true (_get_opt_mod_time st.fs (get_out_path t)) st0)
      env t.deps st = (st1, .ok false))
    (hlink : linkStep env t st1 = (st3, .ok u)) :
    _opt_build env (fuel + 1) t true ts st = (st3, .ok false) ∧
    ∃ args, Event.linkCmd t.name args ∈ st3.events := by
  have hd : decide (_get_opt_mod_time st.fs (get_out_path t) < 0) = false := by
    simp
    omega
  constructor
  · simp only [_opt_build]
    rw [hdeps]
    simp only
    rw [hsrc]
    simp only [buildSources]
    rw [hd]
    simp only [Bool.or_false, Bool.false_or, Bool.or_true, if_true]
    rw [hlink]
  · obtain ⟨objs, links, hc, hfs, hnow, hev⟩ := linkStep_ok_decomp env t st1 st3 u hlink
    refine ⟨linkArgs env t objs links, ?_⟩
    rw [hev]
    simp

/-- C10 witness: a concrete dependency-free, source-free target whose
output exists; the forced build relinks it and still returns `false`. -/
theorem C10_force_relink_returns_false_witness :
    _opt_build (Env.mk "gcc" [] []) 1 (Target.mk "app" .EXECUTABLE "" [] [] [] [])
        true 5 (S.mk [("app", 5)] 10 []) =
      (S.mk [("app", 10), ("app", 5)] 11
        [.buildingTarget "app", .linkCmd "app" ["gcc", "-o", "app"], .completed "app"],
       .ok false) := by
  have h := C10_force_relink_returns_false (Env.mk "gcc" [] []) 0
    (Target.mk "app" .EXECUTABLE "" [] [] [] []) 5
    (S.mk [("app", 5)] 10 [])
    (S.mk [("app", 5)] 10 [])
    (S.mk [("app", 10), ("app", 5)] 11
      [.buildingTarget "app", .linkCmd "app" ["gcc", "-o", "app"], .completed "app"])
    () rfl (by decide) rfl rfl
  exact h.1

/-! Claim C8. -/

/-- C8: for a StaticLib target, the synthesized command is exactly
`ar rcs <output> <objects...>`: a successful archive step dispatches
exactly that command, and the assembled argument list is independent of
the target's flags and of the link-flag list collected from its
dependencies. -/
theorem C8_staticlib_archive_command
    (env : Env) (t : Target) (st st' : S) (u : Unit)
    (htype : t.type = .STATIC_LIB)
    (hlink : linkStep env t st = (st', .ok u)) :
    (∃ objs links,
      collectLink env t.deps (t.sources.map (fun s => _change_extension s ".o"), []) =
        .ok (objs, links) ∧
      st'.events = st.events ++
        [.buildingTarget t.name,
         .linkCmd t.name (["ar", "rcs", get_out_path t] ++ objs),
         .completed t.name]) ∧
    (∀ (flags' links' objs2 : List String),
      linkArgs env { t with flags := flags' } objs2 links' =
        ["ar", "rcs", get_out_path t] ++ objs2) := by
  constructor
  · obtain ⟨objs, links, hc, hfs, hnow, hev⟩ := linkStep_ok_decomp env t st st' u hlink
    refine ⟨objs, links, hc, ?_⟩
    rw [hev]
    have : linkArgs env t objs links = ["ar", "rcs", get_out_path t] ++ objs := by
      simp [linkArgs, htype]
    rw [this]
  · intro flags' links' objs2
    rcases t with ⟨n, ty, od, dp, srcs, fl, inc⟩
    simp only at htype
    subst htype
    simp [linkArgs, get_out_path]

/-- C8 witness: a concrete StaticLib archive step. -/
theorem C8_staticlib_archive_command_witness :
    (S.mk [("x.a", 7), ("x.o", 3)] 8
      [.buildingTarget "x", .linkCmd "x" ["ar", "rcs", "x.a", "x.o"], .completed "x"]).events =
    (S.mk ([("x.o", 3)] : List (String × Int)) 7 ([] : List Event)).events ++
      [.buildingTarget "x",
       .linkCmd "x" (["ar", "rcs",
         get_out_path (Target.mk "x" .STATIC_LIB "" [] ["x.c"] ["-g"] [])] ++ ["x.o"]),
       .completed "x"] := by
  have h := C8_staticlib_archive_command (Env.mk "gcc" [] [])
    (Target.mk "x" .STATIC_LIB "" [] ["x.c"] ["-g"] [])
    (S.mk [("x.o", 3)] 7 [])
    (S.mk [("x.a", 7), ("x.o", 3)] 8
      [.buildingTarget "x", .linkCmd "x" ["ar", "rcs", "x.a", "x.o"], .completed "x"])
    () rfl rfl
  obtain ⟨⟨objs, links, hc, hev⟩, _⟩ := h
  have hobjs : objs = ["x.o"] := by
    have : Except.ok (ε := String) (["x.o"], ([] : List String)) = .ok (objs, links) := hc
    injection this with this
    exact (congrArg Prod.fst this).symm
  rw [hev, hobjs]

/-! Claim C5. -/

/-- C5 counterexample: the object path is NOT the source path with its
extension replaced by the object extension.  For the source `a.b.c`,
replacing the extension (the suffix after the last dot, rendered by
`spec_object_path`) gives `a.b.o`, but the code truncates at the first
dot and the synthesized compile command targets `a.o`. -/
theorem C5_counterexample :
    (build (Env.mk "gcc" [("t", Target.mk "t" .EXECUTABLE "" [] ["a.b.c"] [] [])] []) 2
        (Target.mk "t" .EXECUTABLE "" [] ["a.b.c"] [] []) false
        (S.mk [("a.b.c", 0)] 10 [])).1.events =
      [.compiling "t" "a.b.c",
       .compileCmd "t" ["gcc", "-c", "a.b.c", "-o", "a.o"],
       .buildingTarget "t",
       .linkCmd "t" ["gcc", "a.o", "-o", "t"],
       .completed "t"] ∧
    _change_extension "a.b.c" _object_ext = "a.o" ∧
    spec_object_path "a.b.c" = "a.b.o" ∧
    ("a.o" : String) ≠ "a.b.o" := by
  refine ⟨rfl, by decide, by decide, by decide⟩

/-- C5 (amended): every compile command synthesized by the source walk
has exactly the form
`compiler [-fPIC if DynamicLib] -c source flags -I<incdir>... -o object`,
where the object path is the source path truncated at its FIRST dot with
the object extension appended.  Formally: (1) the command template,
with the object path spelled out; (2) every compile command dispatched
by `buildSources` is `compileArgs` applied to one of the walked
sources and is tagged with the target's name. -/
theorem C5_compile_command_form :
    (∀ (env : Env) (t : Target) (source : String),
      compileArgs env t source =
        [env.c_compiler] ++ (if t.type = TargetType.DYNAMIC_LIB then ["-fPIC"] else []) ++
        ["-c", source] ++ t.flags ++ t.incdirs.map (fun I => "-I" ++ I) ++
        ["-o", String.mk (source.data.takeWhile (fun c => c ≠ '.')) ++ ".o"]) ∧
    (∀ (env : Env) (t : Target) (force : Bool) (tts : Int) (sources : List String)
        (st st' : S) (r : Except String Bool),
      buildSources env t force tts sources st = (st', r) →
      ∃ Δ, st'.events = st.events ++ Δ ∧
        ∀ n args, Event.compileCmd n args ∈ Δ →
          n = t.name ∧ ∃ u ∈ sources, args = compileArgs env t u) := by
  constructor
  · intro env t source
    rfl
  · intro env t force tts sources
    induction sources with
    | nil =>
      intro st st' r h
      simp only [buildSources] at h
      injection h with h1 h2
      subst h1
      exact ⟨[], by simp, by simp⟩
    | cons source rest ih =>
      intro st st' r h
      simp only [buildSources] at h
      by_cases hmiss : (st.fs.lookup source).isNone
      · rw [if_pos hmiss] at h
        injection h with h1 h2
        subst h1
        exact ⟨[], by simp, by simp⟩
      · rw [if_neg hmiss] at h
        by_cases hstale : (_cmp_timestamp (_get_opt_mod_time st.fs source) tts
            || (st.fs.lookup (_change_extension source _object_ext)).isNone || force) = true
        · rw [if_pos hstale] at h
          rcases hrec : buildSources env t force tts rest
              (((st.addEvent (.compiling t.name source)).addEvent
                (.compileCmd t.name (compileArgs env t source))).write
                (_change_extension source _object_ext)) with ⟨st2, r2⟩
          rw [hrec] at h
          obtain ⟨Δ, hΔ, hmem⟩ := ih _ _ _ hrec
          have hst' : st' = st2 := by
            cases r2 <;> injection h with h1 h2 <;> exact h1.symm
          subst hst'
          refine ⟨[.compiling t.name source,
            .compileCmd t.name (compileArgs env t source)] ++ Δ, ?_, ?_⟩
          · rw [hΔ]
            simp [S.addEvent, S.write]
          · intro n args hin
            rcases List.mem_append.mp hin with h1 | h1
            · rcases List.mem_cons.mp h1 with h2 | h2
              · exact absurd h2 (by simp)
              · rcases List.mem_cons.mp h2 with h3 | h3
                · refine ⟨by injection h3, source, List.mem_cons_self _ _, by injection h3⟩
                · exact absurd h3 (by simp)
            · obtain ⟨hn, u, hu, hargs⟩ := hmem n args h1
              exact ⟨hn, u, List.mem_cons_of_mem _ hu, hargs⟩
        · rw [if_neg hstale] at h
          obtain ⟨Δ, hΔ, hmem⟩ := ih _ _ _ h
          refine ⟨[.sourceUpToDate t.name source] ++ Δ, ?_, ?_⟩
          · rw [hΔ]
            simp [S.addEvent]
          · intro n args hin
            rcases List.mem_append.mp hin with h1 | h1
            · exact absurd h1 (by simp)
            · obtain ⟨hn, u, hu, hargs⟩ := hmem n args h1
              exact ⟨hn, u, List.mem_cons_of_mem _ hu, hargs⟩

/-- C5 witness: the amended theorem applied to a concrete source walk in
which one stale source is compiled. -/
theorem C5_compile_command_form_witness :
    compileArgs (Env.mk "gcc" [] []) (Target.mk "t" .EXECUTABLE "" [] ["a.c"] [] []) "a.c" =
      ["gcc"] ++ [] ++ ["-c", "a.c"] ++ [] ++ [] ++ ["-o", "a.o"] ∧
    ∃ Δ, (S.mk [("a.o", 10), ("a.c", 0)] 11
        [.compiling "t" "a.c", .compileCmd "t" ["gcc", "-c", "a.c", "-o", "a.o"]]).events =
      (S.mk ([("a.c", 0)] : List (String × Int)) 10 ([] : List Event)).events ++ Δ ∧
      ∀ n args, Event.compileCmd n args ∈ Δ →
        n = (Target.mk "t" .EXECUTABLE "" [] ["a.c"] [] []).name ∧
        ∃ u ∈ ["a.c"], args = compileArgs (Env.mk "gcc" [] [])
          (Target.mk "t" .EXECUTABLE "" [] ["a.c"] [] []) u := by
  constructor
  · exact C5_compile_command_form.1 (Env.mk "gcc" [] [])
      (Target.mk "t" .EXECUTABLE "" [] ["a.c"] [] []) "a.c"
  · exact C5_compile_command_form.2 (Env.mk "gcc" [] [])
      (Target.mk "t" .EXECUTABLE "" [] ["a.c"] [] []) false (-1) ["a.c"]
      (S.mk [("a.c", 0)] 10 [])
      (S.mk [("a.o", 10), ("a.c", 0)] 11
        [.compiling "t" "a.c", .compileCmd "t" ["gcc", "-c", "a.c", "-o", "a.o"]])
      (.ok true) (by rfl)

/-! Structure of a successful dependency walk of the archive/link step. -/

theorem collectLink_decomp (env : Env) (deps : List String) :
    ∀ (objs0 links0 objs links : List String),
      collectLink env deps (objs0, links0) = .ok (objs, links) →
      ∃ extra lextra, objs = objs0 ++ extra ∧ links = links0 ++ lextra ∧
        (regStaticOuts env deps).Sublist extra ∧
        (∀ d dep, d ∈ deps → env.targets.lookup d = some dep →
          dep.type = .STATIC_LIB → get_out_path dep ∈ extra) := by
  induction deps with
  | nil =>
    intro objs0 links0 objs links h
    simp only [collectLink] at h
    injection h with h
    injection h with h1 h2
    refine ⟨[], [], by simp [h1], by simp [h2], by simp [regStaticOuts], by simp⟩
  | cons d rest ih =>
    intro objs0 links0 objs links h
    simp only [collectLink] at h
    rcases hl : env.targets.lookup d with _ | dep
    · rw [hl] at h
      dsimp only at h
      rcases he : env.external_dependencies.lookup d with _ | ed
      · rw [he] at h
        dsimp only at h
        simp at h
      · rw [he] at h
        dsimp only at h
        have hreg : regStaticOuts env (d :: rest) = regStaticOuts env rest := by
          simp [regStaticOuts, List.filterMap_cons, hl]
        rcases hty : ed.type
        · rw [hty] at h
          dsimp only at h
          obtain ⟨extra, lextra, ho, hli, hsub, hmem⟩ := ih _ _ _ _ h
          refine ⟨(ed.path ++ "/" ++ ed.name ++ _static_ext) :: extra, lextra,
            by rw [ho]; simp, hli, ?_, ?_⟩
          · rw [hreg]
            exact hsub.cons _
          · intro d' dep' hd' hl' hty'
            rcases List.mem_cons.mp hd' with h1 | h1
            · subst h1
              rw [hl'] at hl
              exact absurd hl (by simp)
            · exact List.mem_cons_of_mem _ (hmem d' dep' h1 hl' hty')
        · rw [hty] at h
          dsimp only at h
          simp at h
        · rw [hty] at h
          dsimp only at h
          obtain ⟨extra, lextra, ho, hli, hsub, hmem⟩ := ih _ _ _ _ h
          refine ⟨extra, ("-l" ++ ed.name) :: lextra, ho, by rw [hli]; simp,
            by rw [hreg]; exact hsub, ?_⟩
          intro d' dep' hd' hl' hty'
          rcases List.mem_cons.mp hd' with h1 | h1
          · subst h1
            rw [hl'] at hl
            exact absurd hl (by simp)
          · exact hmem d' dep' h1 hl' hty'
    · rw [hl] at h
      dsimp only at h
      rcases hty : dep.type
      · rw [hty] at h
        dsimp only at h
        simp at h
      · rw [hty] at h
        dsimp only at h
        obtain ⟨extra, lextra, ho, hli, hsub, hmem⟩ := ih _ _ _ _ h
        have hreg : regStaticOuts env (d :: rest) =
            get_out_path dep :: regStaticOuts env rest := by
          simp [regStaticOuts, List.filterMap_cons, hl, hty]
        refine ⟨get_out_path dep :: extra, lextra, by rw [ho]; simp, hli, ?_, ?_⟩
        · rw [hreg]
          exact hsub.cons₂ _
        · intro d' dep' hd' hl' hty'
          rcases List.mem_cons.mp hd' with h1 | h1
          · subst h1
            rw [hl'] at hl
            injection hl with hl
            subst hl
            exact List.mem_cons_self _ _
          · exact List.mem_cons_of_mem _ (hmem d' dep' h1 hl' hty')
      · rw [hty] at h
        dsimp only at h
        simp at h

/-! Claim C7. -/

/-- C7: for an Executable target whose archive/link step runs
successfully, the link-object list is the target's own object files
followed by the dependency contributions `extra`; every dependency that
resolves to a registered StaticLib target contributes its output
artifact path to `extra`, and the registered-StaticLib contributions
occur within `extra` in declared dependency order (as the sublist
`regStaticOuts`), after the target's own object files. -/
theorem C7_staticlib_dep_propagation
    (env : Env) (t : Target) (st st' : S) (u : Unit)
    (htype : t.type = .EXECUTABLE)
    (hlink : linkStep env t st = (st', .ok u)) :
    ∃ extra links,
      collectLink env t.deps (t.sources.map (fun s => _change_extension s ".o"), []) =
        .ok (t.sources.map (fun s => _change_extension s ".o") ++ extra, links) ∧
      Event.linkCmd t.name ([env.c_compiler] ++ t.flags ++
        (t.sources.map (fun s => _change_extension s ".o") ++ extra) ++
        ["-o", get_out_path t] ++ links) ∈ st'.events ∧
      (regStaticOuts env t.deps).Sublist extra ∧
      (∀ d dep, d ∈ t.deps → env.targets.lookup d = some dep →
        dep.type = .STATIC_LIB → get_out_path dep ∈ extra) := by
  obtain ⟨objs, links, hc, hfs, hnow, hev⟩ := linkStep_ok_decomp env t st st' u hlink
  obtain ⟨extra, lextra, ho, hli, hsub, hmem⟩ := collectLink_decomp env t.deps _ _ _ _ hc
  have hli' : links = lextra := by simpa using hli
  subst hli'
  subst ho
  refine ⟨extra, links, hc, ?_, hsub, hmem⟩
  rw [hev]
  have : linkArgs env t (t.sources.map (fun s => _change_extension s ".o") ++ extra) links =
      [env.c_compiler] ++ t.flags ++
        (t.sources.map (fun s => _change_extension s ".o") ++ extra) ++
        ["-o", get_out_path t] ++ links := by
    simp [linkArgs, htype]
  rw [this]
  simp

/-- C7 witness: a concrete Executable depending, in order, on a
registered StaticLib, an external SystemLib and an external StaticLib. -/
theorem C7_staticlib_dep_propagation_witness :
    ∃ extra links,
      collectLink (Env.mk "gcc"
          [("A", Target.mk "A" .STATIC_LIB "" [] ["a.c"] [] []),
           ("B", Target.mk "B" .EXECUTABLE "" ["A", "m", "E"] ["b.c"] [] [])]
          [("m", ExtDep.mk "m" .SYSTEM_LIB ""), ("E", ExtDep.mk "E" .STATIC_LIB "pre")])
        (Target.mk "B" .EXECUTABLE "" ["A", "m", "E"] ["b.c"] [] []).deps
        ((Target.mk "B" .EXECUTABLE "" ["A", "m", "E"] ["b.c"] [] []).sources.map
          (fun s => _change_extension s ".o"), []) =
        .ok ((Target.mk "B" .EXECUTABLE "" ["A", "m", "E"] ["b.c"] [] []).sources.map
          (fun s => _change_extension s ".o") ++ extra, links) ∧
      Event.linkCmd "B" (["gcc"] ++ [] ++
        ((Target.mk "B" .EXECUTABLE "" ["A", "m", "E"] ["b.c"] [] []).sources.map
          (fun s => _change_extension s ".o") ++ extra) ++
        ["-o", get_out_path (Target.mk "B" .EXECUTABLE "" ["A", "m", "E"] ["b.c"] [] [])] ++
        links) ∈
        (S.mk [("B", 9), ("b.o", 1)] 10
          [.buildingTarget "B",
           .linkCmd "B" ["gcc", "b.o", "A.a", "pre/E.a", "-o", "B", "-lm"],
           .completed "B"]).events ∧
      (regStaticOuts (Env.mk "gcc"
          [("A", Target.mk "A" .STATIC_LIB "" [] ["a.c"] [] []),
           ("B", Target.mk "B" .EXECUTABLE "" ["A", "m", "E"] ["b.c"] [] [])]
          [("m", ExtDep.mk "m" .SYSTEM_LIB ""), ("E", ExtDep.mk "E" .STATIC_LIB "pre")])
        ["A", "m", "E"]).Sublist extra := by
  obtain ⟨extra, links, h1, h2, h3, h4⟩ := C7_staticlib_dep_propagation
    (Env.mk "gcc"
      [("A", Target.mk "A" .STATIC_LIB "" [] ["a.c"] [] []),
       ("B", Target.mk "B" .EXECUTABLE "" ["A", "m", "E"] ["b.c"] [] [])]
      [("m", ExtDep.mk "m" .SYSTEM_LIB ""), ("E", ExtDep.mk "E" .STATIC_LIB "pre")])
    (Target.mk "B" .EXECUTABLE "" ["A", "m", "E"] ["b.c"] [] [])
    (S.mk [("b.o", 1)] 9 [])
    (S.mk [("B", 9), ("b.o", 1)] 10
      [.buildingTarget "B",
       .linkCmd "B" ["gcc", "b.o", "A.a", "pre/E.a", "-o", "B", "-lm"],
       .completed "B"])
    () rfl (by rfl)
  exact ⟨extra, links, h1, h2, h3⟩

/-! Claim C6. -/

/-- C6: the archive/link step runs if and only if some dependency
rebuilt (`dr`), some source was recompiled (`sr`), the target's own
output is missing at entry, or the force flag is set.  When the
disjunction holds, a successful build dispatches the synthesized
archive/link command; when it fails, the step returns immediately after
the source walk having added exactly the up-to-date report, so no
command at all is issued for the target, and the returned flag is the
rebuild decision without the force flag. -/
theorem C6_link_iff_rebuild_or_force
    (env : Env) (fuel : Nat) (t : Target) (force : Bool) (ts : Int)
    (st st1 st2 : S) (dr sr : Bool)
    (hdeps : buildDepsAux (fun dep st0 =>
        _opt_build env fuel dep force (_get_opt_mod_time st.fs (get_out_path t)) st0)
      env t.deps st = (st1, .ok dr))
    (hsrcs : buildSources env t force (_get_opt_mod_time st.fs (get_out_path t))
      t.sources st1 = (st2, .ok sr)) :
    ((decide (_get_opt_mod_time st.fs (get_out_path t) < 0) || dr || sr || force) = true →
      ∀ st3 u, linkStep env t st2 = (st3, .ok u) →
        _opt_build env (fuel + 1) t force ts st =
          (st3, .ok (decide (_get_opt_mod_time st.fs (get_out_path t) < 0) || dr || sr)) ∧
        ∃ objs links,
          collectLink env t.deps (t.sources.map (fun s => _change_extension s ".o"), []) =
            .ok (objs, links) ∧
          st3.events = st2.events ++
            [.buildingTarget t.name, .linkCmd t.name (linkArgs env t objs links),
             .completed t.name]) ∧
    ((decide (_get_opt_mod_time st.fs (get_out_path t) < 0) || dr || sr || force) = false →
      _opt_build env (fuel + 1) t force ts st =
        (st2.addEvent (.targetUpToDate t.name),
         .ok (decide (_get_opt_mod_time st.fs (get_out_path t) < 0) || dr || sr))) := by
  constructor
  · intro hif st3 u hlink
    constructor
    · simp only [_opt_build]
      rw [hdeps]
      simp only
      rw [hsrcs]
      simp only
      rw [if_pos hif, hlink]
    · obtain ⟨objs, links, hc, hfs, hnow, hev⟩ := linkStep_ok_decomp env t st2 st3 u hlink
      exact ⟨objs, links, hc, hev⟩
  · intro hif
    simp only [_opt_build]
    rw [hdeps]
    simp only
    rw [hsrcs]
    simp only
    rw [if_neg (by simp [hif])]

/-- C6 witness: an up-to-date concrete target (second conjunct) — no
command is issued and it is reported up to date; and a stale concrete
target (first conjunct) — the link command is dispatched. -/
theorem C6_link_iff_rebuild_or_force_witness :
    (_opt_build (Env.mk "gcc" [] []) 1 (Target.mk "w" .EXECUTABLE "" [] ["w.c"] [] [])
        false 0 (S.mk [("w", 9), ("w.c", 1), ("w.o", 2)] 10 []) =
      ((S.mk [("w", 9), ("w.c", 1), ("w.o", 2)] 10
        [.sourceUpToDate "w" "w.c"]).addEvent (.targetUpToDate "w"),
       .ok false)) ∧
    (_opt_build (Env.mk "gcc" [] []) 1 (Target.mk "v" .EXECUTABLE "" [] [] [] [])
        false 0 (S.mk [] 10 []) =
      (S.mk [("v", 10)] 11
        [.buildingTarget "v", .linkCmd "v" ["gcc", "-o", "v"], .completed "v"],
       .ok true)) := by
  constructor
  · have h := C6_link_iff_rebuild_or_force (Env.mk "gcc" [] []) 0
      (Target.mk "w" .EXECUTABLE "" [] ["w.c"] [] []) false 0
      (S.mk [("w", 9), ("w.c", 1), ("w.o", 2)] 10 [])
      (S.mk [("w", 9), ("w.c", 1), ("w.o", 2)] 10 [])
      (S.mk [("w", 9), ("w.c", 1), ("w.o", 2)] 10 [.sourceUpToDate "w" "w.c"])
      false false rfl (by rfl)
    exact h.2 (by decide)
  · have h := C6_link_iff_rebuild_or_force (Env.mk "gcc" [] []) 0
      (Target.mk "v" .EXECUTABLE "" [] [] [] []) false 0
      (S.mk [] 10 []) (S.mk [] 10 []) (S.mk [] 10 []) false false rfl (by rfl)
    have h2 := h.1 (by decide) (S.mk [("v", 10)] 11
      [.buildingTarget "v", .linkCmd "v" ["gcc", "-o", "v"], .completed "v"]) () (by rfl)
    exact h2.1

/-! Trace structure of the clean operation. -/

theorem cleanDepsAux_trace (env : Env) (clean1 : Target → S → Option S)
    (hrec : ∀ t0 st0 st0', clean1 t0 st0 = some st0' →
      ∃ Δ, st0'.events = st0.events ++
          (Event.cleaning t0.name :: Event.rmCmd t0.name (rmArgs t0) :: Δ) ∧
        (∀ n args, Event.rmCmd n args ∈ Δ →
          ∃ p, p ∈ env.targets ∧ n = p.2.name ∧ args = rmArgs p.2)) :
    ∀ (deps : List String) (st st' : S), cleanDepsAux clean1 env deps st = some st' →
      ∃ Δ, st'.events = st.events ++ Δ ∧
        (∀ n args, Event.rmCmd n args ∈ Δ →
          ∃ p, p ∈ env.targets ∧ n = p.2.name ∧ args = rmArgs p.2) ∧
        (∀ d dep, d ∈ deps → env.targets.lookup d = some dep →
          Event.cleaning dep.name ∈ Δ) := by
  intro deps
  induction deps with
  | nil =>
    intro st st' h
    simp only [cleanDepsAux] at h
    injection h with h
    subst h
    exact ⟨[], by simp, by simp, by simp⟩
  | cons d rest ih =>
    intro st st' h
    simp only [cleanDepsAux] at h
    rcases hl : env.targets.lookup d with _ | dep
    · rw [hl] at h
      dsimp only at h
      obtain ⟨Δ, hΔ, hrm, hcl⟩ := ih st st' h
      refine ⟨Δ, hΔ, hrm, ?_⟩
      intro d' dep' hd' hl'
      rcases List.mem_cons.mp hd' with h1 | h1
      · subst h1
        rw [hl'] at hl
        exact absurd hl (by simp)
      · exact hcl d' dep' h1 hl'
    · rw [hl] at h
      dsimp only at h
      rcases h1 : clean1 dep st with _ | st1
      · rw [h1] at h
        dsimp only at h
        exact absurd h (by simp)
      · rw [h1] at h
        dsimp only at h
        obtain ⟨Δ1, hΔ1, hrm1⟩ := hrec dep st st1 h1
        obtain ⟨Δ2, hΔ2, hrm2, hcl2⟩ := ih st1 st' h
        refine ⟨(Event.cleaning dep.name :: Event.rmCmd dep.name (rmArgs dep) :: Δ1) ++ Δ2,
          ?_, ?_, ?_⟩
        · rw [hΔ2, hΔ1]
          simp
        · intro n args hin
          rcases List.mem_append.mp hin with h2 | h2
          · rcases List.mem_cons.mp h2 with h3 | h3
            · exact absurd h3 (by simp)
            · rcases List.mem_cons.mp h3 with h4 | h4
              · have ha : n = dep.name := by injection h4
                have hb : args = rmArgs dep := by injection h4
                exact ⟨(d, dep), lookup_mem _ _ _ hl, ha, hb⟩
              · exact hrm1 n args h4
          · exact hrm2 n args h2
        · intro d' dep' hd' hl'
          rcases List.mem_cons.mp hd' with h2 | h2
          · subst h2
            rw [hl'] at hl
            injection hl with hl
            subst hl
            simp
          · exact List.mem_append.mpr (Or.inr (hcl2 d' dep' h2 hl'))

theorem clean_trace (env : Env) : ∀ (fuel : Nat) (t : Target) (st st' : S),
    clean env fuel t st = some st' →
    ∃ Δ, st'.events = st.events ++
        (Event.cleaning t.name :: Event.rmCmd t.name (rmArgs t) :: Δ) ∧
      (∀ n args, Event.rmCmd n args ∈ Δ →
        ∃ p, p ∈ env.targets ∧ n = p.2.name ∧ args = rmArgs p.2) ∧
      (∀ d dep, d ∈ t.deps → env.targets.lookup d = some dep →
        Event.cleaning dep.name ∈ Δ) := by
  intro fuel
  induction fuel with
  | zero =>
    intro t st st' h
    exact absurd h (by simp [clean])
  | succ fuel ih =>
    intro t st st' h
    simp only [clean] at h
    obtain ⟨Δ, hΔ, hrm, hcl⟩ := cleanDepsAux_trace env (fun dep st0 => clean env fuel dep st0)
      (fun t0 st0 st0' h0 =>
        (ih t0 st0 st0' h0).imp (fun Δ0 h' => ⟨h'.1, h'.2.1⟩)) t.deps _ st' h
    refine ⟨Δ, ?_, hrm, hcl⟩
    rw [hΔ]
    simp [S.addEvent, S.removeFiles]

/-! Claim C9. -/

/-- C9: `clean` dispatches, for the cleaned target, one removal command
whose argument list covers exactly the target's output artifact and
every source file's corresponding object file, then recursively cleans
every dependency name that resolves to a registered Target (each such
dependency's clean report appears in the subsequent trace); and every
removal command in the entire trace is the removal command of some
registered Target (or of the root), so no removal command is ever
derived from an ExternalDependency. -/
theorem C9_clean_command (env : Env) (fuel : Nat) (t : Target) (st st' : S)
    (h : clean env fuel t st = some st') :
    rmArgs t = ["rm", "-f", get_out_path t] ++
      t.sources.map (fun s => _change_extension s _object_ext) ∧
    ∃ Δ, st'.events = st.events ++
        (Event.cleaning t.name :: Event.rmCmd t.name (rmArgs t) :: Δ) ∧
      (∀ n args, Event.rmCmd n args ∈ Δ →
        ∃ p, p ∈ env.targets ∧ n = p.2.name ∧ args = rmArgs p.2) ∧
      (∀ d dep, d ∈ t.deps → env.targets.lookup d = some dep →
        Event.cleaning dep.name ∈ Δ) :=
  ⟨rfl, clean_trace env fuel t st st' h⟩

/-- C9 witness: cleaning a concrete Executable `B` that depends on a
registered StaticLib `A` and an external dependency `E`.  The trace is
`B`'s removal command followed by `A`'s; no command references `E`. -/
theorem C9_clean_command_witness :
    rmArgs (Target.mk "B" .EXECUTABLE "" ["A", "E"] ["b.c"] [] []) =
      ["rm", "-f", "B"] ++ ["b.o"] ∧
    ∃ Δ, (S.mk ([] : List (String × Int)) 10
        [.cleaning "B", .rmCmd "B" ["rm", "-f", "B", "b.o"],
         .cleaning "A", .rmCmd "A" ["rm", "-f", "A.a", "r.o"]]).events =
      (S.mk [("b.o", 1), ("B", 2)] 10 ([] : List Event)).events ++
        (Event.cleaning "B" ::
         Event.rmCmd "B" (rmArgs (Target.mk "B" .EXECUTABLE "" ["A", "E"] ["b.c"] [] [])) :: Δ) ∧
      (∀ n args, Event.rmCmd n args ∈ Δ →
        ∃ p, p ∈ (Env.mk "gcc"
            [("A", Target.mk "A" .STATIC_LIB "" [] ["r"] [] []),
             ("B", Target.mk "B" .EXECUTABLE "" ["A", "E"] ["b.c"] [] [])]
            [("E", ExtDep.mk "E" .SYSTEM_LIB "")]).targets ∧
          n = p.2.name ∧ args = rmArgs p.2) ∧
      (∀ d dep, d ∈ (Target.mk "B" .EXECUTABLE "" ["A", "E"] ["b.c"] [] []).deps →
        (Env.mk "gcc"
            [("A", Target.mk "A" .STATIC_LIB "" [] ["r"] [] []),
             ("B", Target.mk "B" .EXECUTABLE "" ["A", "E"] ["b.c"] [] [])]
            [("E", ExtDep.mk "E" .SYSTEM_LIB "")]).targets.lookup d = some dep →
        Event.cleaning dep.name ∈ Δ) := by
  have h := C9_clean_command (Env.mk "gcc"
      [("A", Target.mk "A" .STATIC_LIB "" [] ["r"] [] []),
       ("B", Target.mk "B" .EXECUTABLE "" ["A", "E"] ["b.c"] [] [])]
      [("E", ExtDep.mk "E" .SYSTEM_LIB "")]) 3
    (Target.mk "B" .EXECUTABLE "" ["A", "E"] ["b.c"] [] [])
    (S.mk [("b.o", 1), ("B", 2)] 10 [])
    (S.mk [] 10
      [.cleaning "B", .rmCmd "B" ["rm", "-f", "B", "b.o"],
       .cleaning "A", .rmCmd "A" ["rm", "-f", "A.a", "r.o"]])
    (by rfl)
  exact ⟨h.1, h.2⟩

/-! Lemmas about written paths and the reachability relation. -/

theorem writtenOf_subset_writtenPaths (env : Env) (k : String) (r : Target)
    (h : (k, r) ∈ env.targets) : ∀ p ∈ writtenOf r, p ∈ writtenPaths env := by
  intro p hp
  simp only [writtenPaths, List.mem_flatten]
  exact ⟨writtenOf r, List.mem_map.mpr ⟨(k, r), h, rfl⟩, hp⟩

theorem registered_out_ne (env : Env) (k : String) (r : Target) (s : String)
    (h : (k, r) ∈ env.targets) (hs : s ∉ writtenPaths env) :
    get_out_path r ≠ s := by
  intro he
  exact hs (he ▸ writtenOf_subset_writtenPaths env k r h (get_out_path r)
    (List.mem_cons_self _ _))

theorem registered_obj_ne (env : Env) (k : String) (r : Target) (s : String)
    (h : (k, r) ∈ env.targets) (hs : s ∉ writtenPaths env) :
    ∀ u ∈ r.sources, _change_extension u _object_ext ≠ s := by
  intro u hu he
  refine hs (he ▸ writtenOf_subset_writtenPaths env k r h _ ?_)
  exact List.mem_cons_of_mem _ (List.mem_map.mpr ⟨u, hu, rfl⟩)

theorem reaches_elim (env : Env) (bad : String) (n : String)
    (h : Reaches env bad n) : ∀ tg, env.targets.lookup n = some tg →
    TargetReaches env bad tg := by
  cases h with
  | base n tg0 hl hd =>
    intro tg hl'
    rw [hl] at hl'
    injection hl' with hl'
    subst hl'
    exact Or.inl hd
  | step n tg0 d hl hd hr =>
    intro tg hl'
    rw [hl] at hl'
    injection hl' with hl'
    subst hl'
    exact Or.inr ⟨d, hd, hr⟩

theorem targetReaches_iff (env : Env) (bad : String) (r : Target) :
    TargetReaches env bad r ↔ ∃ d ∈ r.deps, d = bad ∨ Reaches env bad d := by
  constructor
  · intro h
    rcases h with h | ⟨d, hd, hr⟩
    · exact ⟨bad, h, Or.inl rfl⟩
    · exact ⟨d, hd, Or.inr hr⟩
  · intro ⟨d, hd, h⟩
    rcases h with h | h
    · exact Or.inl (h ▸ hd)
    · exact Or.inr ⟨d, hd, h⟩

/-! Lemmas about `NoBadEvents`. -/

theorem noBadEvents_nil (env : Env) (bad : String) : NoBadEvents env bad [] := by
  constructor
  · simp
  · simp

theorem noBadEvents_append (env : Env) (bad : String) (Δ1 Δ2 : List Event)
    (h1 : NoBadEvents env bad Δ1) (h2 : NoBadEvents env bad Δ2) :
    NoBadEvents env bad (Δ1 ++ Δ2) := by
  constructor
  · intro args hin
    rcases List.mem_append.mp hin with h | h
    · exact h1.1 args h
    · exact h2.1 args h
  · intro n args hr
    constructor
    · intro hin
      rcases List.mem_append.mp hin with h | h
      · exact (h1.2 n args hr).1 h
      · exact (h2.2 n args hr).1 h
    · intro hin
      rcases List.mem_append.mp hin with h | h
      · exact (h1.2 n args hr).2 h
      · exact (h2.2 n args hr).2 h

theorem noBadEvents_cons (env : Env) (bad : String) (e : Event) (Δ : List Event)
    (he1 : ∀ args, e ≠ Event.linkCmd bad args)
    (he2 : ∀ n args, Reaches env bad n →
      e ≠ Event.compileCmd n args ∧ e ≠ Event.linkCmd n args)
    (h : NoBadEvents env bad Δ) : NoBadEvents env bad (e :: Δ) := by
  constructor
  · intro args hin
    rcases List.mem_cons.mp hin with h1 | h1
    · exact he1 args h1.symm
    · exact h.1 args h1
  · intro n args hr
    constructor
    · intro hin
      rcases List.mem_cons.mp hin with h1 | h1
      · exact (he2 n args hr).1 h1.symm
      · exact (h.2 n args hr).1 h1
    · intro hin
      rcases List.mem_cons.mp hin with h1 | h1
      · exact (he2 n args hr).2 h1.symm
      · exact (h.2 n args hr).2 h1

/-! Local behaviour of the source walk and the link step, as needed for
the missing-source analysis. -/

theorem buildSources_fs_lookup (env : Env) (t0 : Target) (force : Bool) (tts : Int)
    (q : String) :
    ∀ (sources : List String) (st st' : S) (r2 : Except String Bool),
      (∀ u ∈ sources, _change_extension u _object_ext ≠ q) →
      buildSources env t0 force tts sources st = (st', r2) →
      st'.fs.lookup q = st.fs.lookup q := by
  intro sources
  induction sources with
  | nil =>
    intro st st' r2 _ h
    simp only [buildSources] at h
    injection h with h1 h2
    subst h1
    rfl
  | cons source rest ih =>
    intro st st' r2 hq h
    simp only [buildSources] at h
    by_cases hmiss : (st.fs.lookup source).isNone
    · rw [if_pos hmiss] at h
      injection h with h1 h2
      subst h1
      rfl
    · rw [if_neg hmiss] at h
      by_cases hstale : (_cmp_timestamp (_get_opt_mod_time st.fs source) tts
          || (st.fs.lookup (_change_extension source _object_ext)).isNone || force) = true
      · rw [if_pos hstale] at h
        rcases hrec : buildSources env t0 force tts rest
            (((st.addEvent (.compiling t0.name source)).addEvent
              (.compileCmd t0.name (compileArgs env t0 source))).write
              (_change_extension source _object_ext)) with ⟨st2, r3⟩
        rw [hrec] at h
        have hmid := ih _ _ _ (fun u hu => hq u (List.mem_cons_of_mem _ hu)) hrec
        have hst' : st' = st2 := by
          cases r3 <;> injection h with h1 h2 <;> exact h1.symm
        subst hst'
        rw [hmid]
        simp only [S.write, S.addEvent]
        rw [lookup_cons]
        have hne : (q == _change_extension source _object_ext) = false := by
          rw [beq_eq_false_iff_ne]
          intro he
          exact hq source (List.mem_cons_self _ _) he.symm
        simp [hne]
      · rw [if_neg hstale] at h
        have := ih _ _ _ (fun u hu => hq u (List.mem_cons_of_mem _ hu)) h
        rw [this]
        rfl

theorem buildSources_events (env : Env) (t0 : Target) (force : Bool) (tts : Int) :
    ∀ (sources : List String) (st st' : S) (r2 : Except String Bool),
      buildSources env t0 force tts sources st = (st', r2) →
      ∃ Δ, st'.events = st.events ++ Δ ∧
        (∀ n args, Event.linkCmd n args ∉ Δ) ∧
        (∀ n args, Event.compileCmd n args ∈ Δ → n = t0.name) := by
  intro sources
  induction sources with
  | nil =>
    intro st st' r2 h
    simp only [buildSources] at h
    injection h with h1 h2
    subst h1
    exact ⟨[], by simp, by simp, by simp⟩
  | cons source rest ih =>
    intro st st' r2 h
    simp only [buildSources] at h
    by_cases hmiss : (st.fs.lookup source).isNone
    · rw [if_pos hmiss] at h
      injection h with h1 h2
      subst h1
      exact ⟨[], by simp, by simp, by simp⟩
    · rw [if_neg hmiss] at h
      by_cases hstale : (_cmp_timestamp (_get_opt_mod_time st.fs source) tts
          || (st.fs.lookup (_change_extension source _object_ext)).isNone || force) = true
      · rw [if_pos hstale] at h
        rcases hrec : buildSources env t0 force tts rest
            (((st.addEvent (.compiling t0.name source)).addEvent
              (.compileCmd t0.name (compileArgs env t0 source))).write
              (_change_extension source _object_ext)) with ⟨st2, r3⟩
        rw [hrec] at h
        obtain ⟨Δ, hΔ, hl, hc⟩ := ih _ _ _ hrec
        have hst' : st' = st2 := by
          cases r3 <;> injection h with h1 h2 <;> exact h1.symm
        subst hst'
        refine ⟨[.compiling t0.name source,
          .compileCmd t0.name (compileArgs env t0 source)] ++ Δ, ?_, ?_, ?_⟩
        · rw [hΔ]
          simp [S.addEvent, S.write]
        · intro n args hin
          rcases List.mem_append.mp hin with h1 | h1
          · simp at h1
          · exact hl n args h1
        · intro n args hin
          rcases List.mem_append.mp hin with h1 | h1
          · rcases List.mem_cons.mp h1 with h2 | h2
            · exact absurd h2 (by simp)
            · rcases List.mem_cons.mp h2 with h3 | h3
              · injection h3
              · exact absurd h3 (by simp)
          · exact hc n args h1
      · rw [if_neg hstale] at h
        obtain ⟨Δ, hΔ, hl, hc⟩ := ih _ _ _ h
        refine ⟨[.sourceUpToDate t0.name source] ++ Δ, ?_, ?_, ?_⟩
        · rw [hΔ]
          simp [S.addEvent]
        · intro n args hin
          rcases List.mem_append.mp hin with h1 | h1
          · simp at h1
          · exact hl n args h1
        · intro n args hin
          rcases List.mem_append.mp hin with h1 | h1
          · simp at h1
          · exact hc n args h1

theorem buildSources_missing_error (env : Env) (t0 : Target) (force : Bool) (tts : Int)
    (s : String) :
    ∀ (sources : List String) (st : S), s ∈ sources → st.fs.lookup s = none →
      (∀ u ∈ sources, _change_extension u _object_ext ≠ s) →
      ∃ st' m, buildSources env t0 force tts sources st = (st', .error m) := by
  intro sources
  induction sources with
  | nil =>
    intro st hs
    simp at hs
  | cons source rest ih =>
    intro st hs hmiss hobj
    by_cases hsm : (st.fs.lookup source).isNone
    · refine ⟨st, "Could not find source file " ++ source, ?_⟩
      simp only [buildSources]
      rw [if_pos hsm]
    · have hne : source ≠ s := by
        intro he
        rw [he, hmiss] at hsm
        simp at hsm
      have hs' : s ∈ rest := by
        rcases List.mem_cons.mp hs with h1 | h1
        · exact absurd h1.symm hne
        · exact h1
      by_cases hstale : (_cmp_timestamp (_get_opt_mod_time st.fs source) tts
          || (st.fs.lookup (_change_extension source _object_ext)).isNone || force) = true
      · have hmiss2 : ((((st.addEvent (.compiling t0.name source)).addEvent
            (.compileCmd t0.name (compileArgs env t0 source))).write
            (_change_extension source _object_ext)).fs.lookup s) = none := by
          simp only [S.write, S.addEvent]
          rw [lookup_cons]
          have hne : (s == _change_extension source _object_ext) = false := by
            rw [beq_eq_false_iff_ne]
            intro he
            exact hobj source (List.mem_cons_self _ _) he.symm
          rw [hne]
          simpa using hmiss
        obtain ⟨st2, m, hrec⟩ := ih _ hs' hmiss2
          (fun u hu => hobj u (List.mem_cons_of_mem _ hu))
        refine ⟨st2, m, ?_⟩
        simp only [buildSources]
        rw [if_neg hsm, if_pos hstale, hrec]
      · obtain ⟨st2, m, hrec⟩ := ih (st.addEvent (.sourceUpToDate t0.name source)) hs'
          (by simpa [S.addEvent] using hmiss)
          (fun u hu => hobj u (List.mem_cons_of_mem _ hu))
        refine ⟨st2, m, ?_⟩
        simp only [buildSources]
        rw [if_neg hsm, if_neg hstale, hrec]

theorem linkStep_shape (env : Env) (r : Target) (st st' : S) (res3 : Except String Unit)
    (h : linkStep env r st = (st', res3)) :
    (∀ q, q ≠ get_out_path r → st'.fs.lookup q = st.fs.lookup q) ∧
    ∃ Δ, st'.events = st.events ++ Δ ∧
      (∀ e ∈ Δ, e = .buildingTarget r.name ∨ e = .completed r.name ∨
        ∃ args, e = Event.linkCmd r.name args) := by
  simp only [linkStep] at h
  rcases hc : collectLink env r.deps (r.sources.map (fun s => _change_extension s ".o"), [])
    with m | ⟨objs, links⟩
  · rw [hc] at h
    dsimp only at h
    injection h with h1 h2
    subst h1
    refine ⟨fun q _ => rfl, [.buildingTarget r.name], by simp [S.addEvent], by simp⟩
  · rw [hc] at h
    dsimp only at h
    injection h with h1 h2
    subst h1
    constructor
    · intro q hq
      simp only [S.addEvent, S.write]
      rw [lookup_cons]
      have hne : (q == get_out_path r) = false := by
        rw [beq_eq_false_iff_ne]
        exact hq
      simp [hne]
    · refine ⟨[.buildingTarget r.name, .linkCmd r.name (linkArgs env r objs links),
        .completed r.name], by simp [S.addEvent, S.write], ?_⟩
      intro e he
      rcases List.mem_cons.mp he with h1 | h1
      · exact Or.inl h1
      · rcases List.mem_cons.mp h1 with h2 | h2
        · exact Or.inr (Or.inr ⟨_, h2⟩)
        · rcases List.mem_cons.mp h2 with h3 | h3
          · exact Or.inr (Or.inl h3)
          · simp at h3

/-! The dependency walk in the presence of a target with a missing
source file. -/

theorem c3_deps_loop (env : Env) (t : Target) (s : String)
    (h_wf : ∀ e ∈ env.targets, e.2.name = e.1)
    (h_t : env.targets.lookup t.name = some t)
    (build1 : Target → S → S × Except String Bool)
    (hb : ∀ dep st0 st0' res0, env.targets.lookup dep.name = some dep →
      st0.fs.lookup s = none → build1 dep st0 = (st0', res0) →
      st0'.fs.lookup s = none ∧
      (∃ Δ, st0'.events = st0.events ++ Δ ∧ NoBadEvents env t.name Δ) ∧
      ((dep.name = t.name ∨ TargetReaches env t.name dep) → ∃ m, res0 = .error m)) :
    ∀ (deps : List String) (st st1 : S) (res1 : Except String Bool),
      st.fs.lookup s = none →
      buildDepsAux build1 env deps st = (st1, res1) →
      st1.fs.lookup s = none ∧
      (∃ Δ, st1.events = st.events ++ Δ ∧ NoBadEvents env t.name Δ) ∧
      ((∃ d ∈ deps, d = t.name ∨ Reaches env t.name d) → ∃ m, res1 = .error m) := by
  intro deps
  induction deps with
  | nil =>
    intro st st1 res1 hfs h
    simp only [buildDepsAux] at h
    injection h with h1 h2
    subst h1
    exact ⟨hfs, ⟨[], by simp, noBadEvents_nil env t.name⟩, by simp⟩
  | cons d rest ih =>
    intro st st1 res1 hfs h
    simp only [buildDepsAux] at h
    rcases hl : env.targets.lookup d with _ | dep
    · rw [hl] at h
      dsimp only at h
      have hnotbad : ¬ (d = t.name ∨ Reaches env t.name d) := by
        intro hb1
        rcases hb1 with h1 | h1
        · rw [h1, h_t] at hl
          exact absurd hl (by simp)
        · cases h1 with
          | base n tg hl2 hd2 => rw [hl2] at hl; exact absurd hl (by simp)
          | step n tg d2 hl2 hd2 hr2 => rw [hl2] at hl; exact absurd hl (by simp)
      rcases he : env.external_dependencies.lookup d with _ | ed
      · rw [he] at h
        dsimp only at h
        injection h with h1 h2
        subst h1
        refine ⟨hfs, ⟨[], by simp, noBadEvents_nil env t.name⟩, fun _ => ⟨_, h2.symm⟩⟩
      · rw [he] at h
        dsimp only at h
        obtain ⟨hfs1, hΔ, herr⟩ := ih st st1 res1 hfs h
        refine ⟨hfs1, hΔ, ?_⟩
        intro ⟨d', hd', hbad⟩
        rcases List.mem_cons.mp hd' with h1 | h1
        · exact absurd (h1 ▸ hbad) hnotbad
        · exact herr ⟨d', h1, hbad⟩
    · rw [hl] at h
      dsimp only at h
      have hmem := lookup_mem _ _ _ hl
      have hname : dep.name = d := h_wf (d, dep) hmem
      have hdreg : env.targets.lookup dep.name = some dep := by
        rw [hname]
        exact hl
      rcases hrec : build1 dep (st.addEvent (.checkingDep d)) with ⟨stA, resA⟩
      rw [hrec] at h
      obtain ⟨hfsA, ⟨ΔA, hΔA, hbadA⟩, herrA⟩ :=
        hb dep (st.addEvent (.checkingDep d)) stA resA hdreg hfs hrec
      have hΔA' : stA.events = st.events ++ (Event.checkingDep d :: ΔA) := by
        rw [hΔA]
        simp [S.addEvent]
      have hbadA' : NoBadEvents env t.name (Event.checkingDep d :: ΔA) :=
        noBadEvents_cons env t.name _ _ (by simp) (by simp) hbadA
      cases resA with
      | error m =>
        dsimp only at h
        injection h with h1 h2
        subst h1
        exact ⟨hfsA, ⟨Event.checkingDep d :: ΔA, hΔA', hbadA'⟩, fun _ => ⟨m, h2.symm⟩⟩
      | ok rA =>
        dsimp only at h
        rcases hrest : buildDepsAux build1 env rest stA with ⟨stB, resB⟩
        rw [hrest] at h
        obtain ⟨hfsB, ⟨ΔB, hΔB, hbadB⟩, herrB⟩ := ih stA stB resB hfsA hrest
        have hΔfull : stB.events = st.events ++ ((Event.checkingDep d :: ΔA) ++ ΔB) := by
          rw [hΔB, hΔA']
          simp
        have hbadfull : NoBadEvents env t.name ((Event.checkingDep d :: ΔA) ++ ΔB) :=
          noBadEvents_append env t.name _ _ hbadA' hbadB
        have hheadbad : ∀ hbad : d = t.name ∨ Reaches env t.name d, False := by
          intro hbad
          have hkey : dep.name = t.name ∨ TargetReaches env t.name dep := by
            rcases hbad with h1 | h1
            · exact Or.inl (hname.trans h1)
            · exact Or.inr (reaches_elim env t.name d h1 dep hl)
          obtain ⟨m, hm⟩ := herrA hkey
          simp at hm
        cases resB with
        | ok rB =>
          dsimp only at h
          injection h with h1 h2
          subst h1
          refine ⟨hfsB, ⟨_, hΔfull, hbadfull⟩, ?_⟩
          intro ⟨d', hd', hbad⟩
          rcases List.mem_cons.mp hd' with h1 | h1
          · exact absurd (h1 ▸ hbad) (fun hx => hheadbad hx)
          · obtain ⟨m, hm⟩ := herrB ⟨d', h1, hbad⟩
            simp at hm
        | error mB =>
          dsimp only at h
          injection h with h1 h2
          subst h1
          exact ⟨hfsB, ⟨_, hΔfull, hbadfull⟩, fun _ => ⟨mB, h2.symm⟩⟩

/-- Master induction for the missing-source analysis: fix a registered
target `t` with a source file `s` that is missing and is never written
by any build step.  Then any build of a properly registered root `r`
preserves the absence of `s`, emits no link command of `t` and no
compile or link command of any name that transitively depends on `t`,
and errors out whenever `r` is `t` or transitively depends on `t`. -/
theorem c3_master (env : Env) (t : Target) (s : String) (force : Bool)
    (h_wf : ∀ e ∈ env.targets, e.2.name = e.1)
    (h_t : env.targets.lookup t.name = some t)
    (h_s : s ∈ t.sources)
    (h_sep : s ∉ writtenPaths env) :
    ∀ (fuel : Nat) (r : Target), env.targets.lookup r.name = some r →
    ∀ (ts : Int) (st st' : S) (res : Except String Bool),
      st.fs.lookup s = none →
      _opt_build env fuel r force ts st = (st', res) →
      st'.fs.lookup s = none ∧
      (∃ Δ, st'.events = st.events ++ Δ ∧ NoBadEvents env t.name Δ) ∧
      ((r.name = t.name ∨ TargetReaches env t.name r) → ∃ m, res = .error m) := by
  intro fuel
  induction fuel with
  | zero =>
    intro r h_r ts st st' res hfs h
    simp only [_opt_build] at h
    injection h with h1 h2
    subst h1
    exact ⟨hfs, ⟨[], by simp, noBadEvents_nil env t.name⟩, fun _ => ⟨_, h2.symm⟩⟩
  | succ fuel ih =>
    intro r h_r ts st st' res hfs h
    simp only [_opt_build] at h
    have hloop := c3_deps_loop env t s h_wf h_t
      (fun dep st0 => _opt_build env fuel dep force
        (_get_opt_mod_time st.fs (get_out_path r)) st0)
      (fun dep st0 st0' res0 hreg hfs0 h0 => ih dep hreg _ st0 st0' res0 hfs0 h0)
    rcases hdeps : buildDepsAux (fun dep st0 => _opt_build env fuel dep force
        (_get_opt_mod_time st.fs (get_out_path r)) st0) env r.deps st with ⟨st1, res1⟩
    rw [hdeps] at h
    obtain ⟨hfs1, ⟨Δ1, hΔ1, hbad1⟩, herr1⟩ := hloop r.deps st st1 res1 hfs hdeps
    have hrmem := lookup_mem _ _ _ h_r
    have hobj : ∀ u ∈ r.sources, _change_extension u _object_ext ≠ s :=
      registered_obj_ne env r.name r s hrmem h_sep
    have hout : get_out_path r ≠ s := registered_out_ne env r.name r s hrmem h_sep
    cases res1 with
    | error m1 =>
      dsimp only at h
      injection h with h1 h2
      subst h1
      exact ⟨hfs1, ⟨Δ1, hΔ1, hbad1⟩, fun _ => ⟨m1, h2.symm⟩⟩
    | ok dr =>
      dsimp only at h
      rcases hsrc : buildSources env r force (_get_opt_mod_time st.fs (get_out_path r))
          r.sources st1 with ⟨st2, res2⟩
      rw [hsrc] at h
      have hfs2 : st2.fs.lookup s = st1.fs.lookup s :=
        buildSources_fs_lookup env r force _ s r.sources st1 st2 res2 hobj hsrc
      obtain ⟨Δ2, hΔ2, hl2, hc2⟩ :=
        buildSources_events env r force _ r.sources st1 st2 res2 hsrc
      have hnotr : ¬ TargetReaches env t.name r := by
        intro htr
        obtain ⟨m, hm⟩ := herr1 ((targetReaches_iff env t.name r).mp htr)
        simp at hm
      have hnotReachesName : ¬ Reaches env t.name r.name := by
        intro hre
        exact hnotr (reaches_elim env t.name r.name hre r h_r)
      have hbad2 : NoBadEvents env t.name Δ2 := by
        constructor
        · exact fun args => hl2 t.name args
        · intro n args hre
          constructor
          · intro hin
            exact hnotReachesName ((hc2 n args hin) ▸ hre)
          · exact fun hin => hl2 n args hin
      have hΔ12 : st2.events = st.events ++ (Δ1 ++ Δ2) := by
        rw [hΔ2, hΔ1, List.append_assoc]
      have hbad12 := noBadEvents_append env t.name _ _ hbad1 hbad2
      cases res2 with
      | error m2 =>
        dsimp only at h
        injection h with h1 h2
        subst h1
        exact ⟨by rw [hfs2]; exact hfs1, ⟨Δ1 ++ Δ2, hΔ12, hbad12⟩,
          fun _ => ⟨m2, h2.symm⟩⟩
      | ok sr =>
        dsimp only at h
        have hname_ne : r.name ≠ t.name := by
          intro he
          rw [he, h_t] at h_r
          injection h_r with h_r
          obtain ⟨stx, mx, hx⟩ := buildSources_missing_error env r force
            (_get_opt_mod_time st.fs (get_out_path r)) s r.sources st1
            (h_r ▸ h_s) hfs1 hobj
          rw [hx] at hsrc
          injection hsrc with ha hb
          simp at hb
        by_cases hif : (decide (_get_opt_mod_time st.fs (get_out_path r) < 0)
            || dr || sr || force) = true
        · rw [if_pos hif] at h
          rcases hlink : linkStep env r st2 with ⟨st3, res3⟩
          rw [hlink] at h
          obtain ⟨hfs3, Δ3, hΔ3, hshape⟩ := linkStep_shape env r st2 st3 res3 hlink
          have hfs3s : st3.fs.lookup s = st2.fs.lookup s :=
            hfs3 s (fun he => hout he.symm)
          have hbad3 : NoBadEvents env t.name Δ3 := by
            constructor
            · intro args hin
              rcases hshape _ hin with h1 | h1 | ⟨args2, h1⟩
              · simp at h1
              · simp at h1
              · injection h1 with ha hb
                exact hname_ne ha.symm
            · intro n args hre
              constructor
              · intro hin
                rcases hshape _ hin with h1 | h1 | ⟨args2, h1⟩
                · simp at h1
                · simp at h1
                · simp at h1
              · intro hin
                rcases hshape _ hin with h1 | h1 | ⟨args2, h1⟩
                · simp at h1
                · simp at h1
                · injection h1 with ha hb
                  exact hnotReachesName (ha ▸ hre)
          have hΔ123 : st3.events = st.events ++ ((Δ1 ++ Δ2) ++ Δ3) := by
            rw [hΔ3, hΔ12, List.append_assoc]
          have hbad123 := noBadEvents_append env t.name _ _ hbad12 hbad3
          have hfsfinal : st3.fs.lookup s = none := by
            rw [hfs3s, hfs2]
            exact hfs1
          cases res3 with
          | ok u =>
            injection h with h1 h2
            subst h1
            refine ⟨hfsfinal, ⟨_, hΔ123, hbad123⟩, ?_⟩
            intro hb'
            rcases hb' with h1 | h1
            · exact absurd h1 hname_ne
            · exact absurd h1 hnotr
          | error m3 =>
            injection h with h1 h2
            subst h1
            exact ⟨hfsfinal, ⟨_, hΔ123, hbad123⟩, fun _ => ⟨m3, h2.symm⟩⟩
        · rw [if_neg hif] at h
          injection h with h1 h2
          subst h1
          have hbadfin : NoBadEvents env t.name ((Δ1 ++ Δ2) ++ [.targetUpToDate r.name]) := by
            refine noBadEvents_append env t.name _ _ hbad12 ?_
            exact noBadEvents_cons env t.name _ _ (by simp) (by simp)
              (noBadEvents_nil env t.name)
          refine ⟨by simpa [S.addEvent] using hfs2.trans hfs1, ⟨_, ?_, hbadfin⟩, ?_⟩
          · simp only [S.addEvent]
            rw [hΔ12]
            simp
          · intro hb'
            rcases hb' with h1 | h1
            · exact absurd h1 hname_ne
            · exact absurd h1 hnotr

/-! Claim C3. -/

/-- C3 counterexample: a compile command IS issued for a target with a
missing source file, when an earlier-listed source is stale.  Target "m"
declares sources `[a.c, b.c]`; `a.c` exists and is stale, `b.c` is
missing.  The build compiles `a.c` (dispatching its compile command) and
only then aborts on `b.c`, so "no compile command is issued for that
target" fails on the code. -/
theorem C3_counterexample :
    build (Env.mk "gcc" [("m", Target.mk "m" .EXECUTABLE "" [] ["a.c", "b.c"] [] [])] []) 3
        (Target.mk "m" .EXECUTABLE "" [] ["a.c", "b.c"] [] []) false
        (S.mk [("a.c", 0)] 10 []) =
      (S.mk [("a.o", 10), ("a.c", 0)] 11
        [.compiling "m" "a.c", .compileCmd "m" ["gcc", "-c", "a.c", "-o", "a.o"]],
       .error "Could not find source file b.c") ∧
    Event.compileCmd "m" ["gcc", "-c", "a.c", "-o", "a.o"] ∈
      (build (Env.mk "gcc" [("m", Target.mk "m" .EXECUTABLE "" [] ["a.c", "b.c"] [] [])] []) 3
        (Target.mk "m" .EXECUTABLE "" [] ["a.c", "b.c"] [] []) false
        (S.mk [("a.c", 0)] 10 [])).1.events := by
  exact ⟨rfl, by decide⟩

/-- C3 (amended): let `t` be a registered target declaring a source file
`s` that does not exist and that no build step can create (`s` is not an
object or output path of any registered target).  Then for any properly
registered root `r`, the build emits no link command for `t`, no compile
and no link command for any name transitively depending on `t`, and it
aborts fatally whenever `r` is `t` or transitively depends on `t`.
Compile commands of `t` itself for sources listed before the missing one
may still be dispatched (see the counterexample), as may full builds of
dependency subtrees visited before the failure. -/
theorem C3_missing_source_aborts
    (env : Env) (t : Target) (s : String) (force : Bool) (fuel : Nat)
    (r : Target) (ts : Int) (st st' : S) (res : Except String Bool)
    (h_wf : ∀ e ∈ env.targets, e.2.name = e.1)
    (h_t : env.targets.lookup t.name = some t)
    (h_r : env.targets.lookup r.name = some r)
    (h_s : s ∈ t.sources)
    (h_miss : st.fs.lookup s = none)
    (h_sep : s ∉ writtenPaths env)
    (h : _opt_build env fuel r force ts st = (st', res)) :
    (∃ Δ, st'.events = st.events ++ Δ ∧
      (∀ args, Event.linkCmd t.name args ∉ Δ) ∧
      (∀ n args, Reaches env t.name n →
        Event.compileCmd n args ∉ Δ ∧ Event.linkCmd n args ∉ Δ)) ∧
    ((r.name = t.name ∨ TargetReaches env t.name r) → ∃ m, res = .error m) := by
  obtain ⟨_, ⟨Δ, hΔ, hbad⟩, herr⟩ :=
    c3_master env t s force h_wf h_t h_s h_sep fuel r h_r ts st st' res h_miss h
  exact ⟨⟨Δ, hΔ, hbad.1, hbad.2⟩, herr⟩

/-- C3 witness: the amended theorem applied to the concrete
missing-source scenario of the counterexample, with the root being the
failing target itself: the build aborts and the new trace contains no
link command of "m". -/
theorem C3_missing_source_aborts_witness :
    (∃ Δ, (S.mk [("a.o", 10), ("a.c", 0)] 11
        [.compiling "m" "a.c", .compileCmd "m" ["gcc", "-c", "a.c", "-o", "a.o"]]).events =
      (S.mk ([("a.c", 0)] : List (String × Int)) 10 ([] : List Event)).events ++ Δ ∧
      (∀ args, Event.linkCmd "m" args ∉ Δ) ∧
      (∀ n args, Reaches (Env.mk "gcc"
          [("m", Target.mk "m" .EXECUTABLE "" [] ["a.c", "b.c"] [] [])] []) "m" n →
        Event.compileCmd n args ∉ Δ ∧ Event.linkCmd n args ∉ Δ)) ∧
    ∃ m, (Except.error "Could not find source file b.c" : Except String Bool) =
      .error m := by
  have h := C3_missing_source_aborts
    (Env.mk "gcc" [("m", Target.mk "m" .EXECUTABLE "" [] ["a.c", "b.c"] [] [])] [])
    (Target.mk "m" .EXECUTABLE "" [] ["a.c", "b.c"] [] []) "b.c" false 3
    (Target.mk "m" .EXECUTABLE "" [] ["a.c", "b.c"] [] []) (-1)
    (S.mk [("a.c", 0)] 10 [])
    (S.mk [("a.o", 10), ("a.c", 0)] 11
      [.compiling "m" "a.c", .compileCmd "m" ["gcc", "-c", "a.c", "-o", "a.o"]])
    (.error "Could not find source file b.c")
    (by decide) rfl rfl (by decide) rfl (by decide) (by rfl)
  exact ⟨h.1, h.2 (Or.inl rfl)⟩

/-! Clock and filesystem invariants of the executor model. -/

theorem valid_lookup (st : S) (h : ValidS st) (p : String) (v : Int)
    (hl : st.fs.lookup p = some v) : 0 ≤ v ∧ v < st.now :=
  h.2 (p, v) (lookup_mem _ _ _ hl)

theorem valid_addEvent (st : S) (e : Event) (h : ValidS st) : ValidS (st.addEvent e) := h

theorem valid_write (st : S) (p : String) (h : ValidS st) : ValidS (st.write p) := by
  constructor
  · simp only [S.write]
    have := h.1
    omega
  · intro e he
    simp only [S.write] at he
    rcases List.mem_cons.mp he with h1 | h1
    · rw [h1]
      refine ⟨h.1, ?_⟩
      simp only [S.write]
      omega
    · have := h.2 e h1
      refine ⟨this.1, ?_⟩
      simp only [S.write]
      omega

theorem write_lookup_grow (st : S) (p : String) (h : ValidS st) (q : String) (v : Int)
    (hl : st.fs.lookup q = some v) :
    ∃ v', (st.write p).fs.lookup q = some v' ∧ v ≤ v' := by
  simp only [S.write]
  rw [lookup_cons]
  by_cases hq : (q == p) = true
  · refine ⟨st.now, by simp [hq], le_of_lt (valid_lookup st h q v hl).2⟩
  · rw [Bool.not_eq_true] at hq
    refine ⟨v, ?_, le_refl v⟩
    simp [hq]
    exact hl

theorem write_lookup_other (st : S) (p q : String) (hq : q ≠ p) :
    (st.write p).fs.lookup q = st.fs.lookup q := by
  simp only [S.write]
  rw [lookup_cons]
  have hne : (q == p) = false := by
    rw [beq_eq_false_iff_ne]
    exact hq
  simp [hne]

theorem write_lookup_self (st : S) (p : String) :
    (st.write p).fs.lookup p = some st.now := by
  simp only [S.write]
  rw [lookup_cons]
  simp

/-- Strong specification of the source walk: it preserves world
validity, only advances the clock, never deletes files nor dates them
backwards; on success every walked source and its object file are
present at the end; and when it reports no recompilation the filesystem
is untouched and every source was found fresh with its object present. -/
theorem buildSources_strong (env : Env) (t0 : Target) (force : Bool) (tts : Int) :
    ∀ (sources : List String) (st st' : S) (r2 : Except String Bool),
      ValidS st →
      buildSources env t0 force tts sources st = (st', r2) →
      ValidS st' ∧ st.now ≤ st'.now ∧
      (∀ p v, st.fs.lookup p = some v → ∃ v', st'.fs.lookup p = some v' ∧ v ≤ v') ∧
      (∀ b, r2 = .ok b → ∀ u ∈ sources,
        (∃ τ, st'.fs.lookup u = some τ) ∧
        (st'.fs.lookup (_change_extension u _object_ext)).isSome) ∧
      (r2 = .ok false → st'.fs = st.fs ∧
        ∀ u ∈ sources, ∃ τ, st.fs.lookup u = some τ ∧
          _cmp_timestamp τ tts = false ∧
          (st.fs.lookup (_change_extension u _object_ext)).isSome) := by
  intro sources
  induction sources with
  | nil =>
    intro st st' r2 hv h
    simp only [buildSources] at h
    injection h with h1 h2
    subst h1
    exact ⟨hv, le_refl _, fun p v hl => ⟨v, hl, le_refl v⟩, by simp, by simp⟩
  | cons source rest ih =>
    intro st st' r2 hv h
    simp only [buildSources] at h
    by_cases hmiss : (st.fs.lookup source).isNone
    · rw [if_pos hmiss] at h
      injection h with h1 h2
      subst h1
      refine ⟨hv, le_refl _, fun p v hl => ⟨v, hl, le_refl v⟩, ?_, ?_⟩
      · intro b hb
        rw [← h2] at hb
        simp at hb
      · intro hb
        rw [← h2] at hb
        simp at hb
    · rw [if_neg hmiss] at h
      by_cases hstale : (_cmp_timestamp (_get_opt_mod_time st.fs source) tts
          || (st.fs.lookup (_change_extension source _object_ext)).isNone || force) = true
      · rw [if_pos hstale] at h
        set stw := (((st.addEvent (.compiling t0.name source)).addEvent
          (.compileCmd t0.name (compileArgs env t0 source))).write
          (_change_extension source _object_ext)) with hstw
        rcases hrec : buildSources env t0 force tts rest stw with ⟨st2, r3⟩
        rw [hrec] at h
        have hvw : ValidS stw := valid_write _ _ hv
        obtain ⟨hv2, hn2, hg2, hok2, _⟩ := ih stw st2 r3 hvw hrec
        have hst' : st' = st2 := by
          cases r3 <;> injection h with h1 h2 <;> exact h1.symm
        subst hst'
        have hr2ok : ∀ b, r2 = .ok b → ∃ b', r3 = .ok b' := by
          intro b hb
          cases r3 with
          | ok b' => exact ⟨b', rfl⟩
          | error m =>
            injection h with h1 h2
            rw [← h2] at hb
            simp at hb
        have hgrow : ∀ p v, st.fs.lookup p = some v →
            ∃ v', st'.fs.lookup p = some v' ∧ v ≤ v' := by
          intro p v hl
          obtain ⟨v1, hl1, hle1⟩ := write_lookup_grow
            ((st.addEvent (.compiling t0.name source)).addEvent
              (.compileCmd t0.name (compileArgs env t0 source)))
            (_change_extension source _object_ext) hv p v hl
          obtain ⟨v2, hl2, hle2⟩ := hg2 p v1 hl1
          exact ⟨v2, hl2, le_trans hle1 hle2⟩
        refine ⟨hv2, ?_, hgrow, ?_, ?_⟩
        · have hss : st.now ≤ stw.now := by
            rw [hstw]
            simp only [S.write, S.addEvent]
            omega
          exact le_trans hss hn2
        · intro b hb u hu
          obtain ⟨b', hb'⟩ := hr2ok b hb
          rcases List.mem_cons.mp hu with h1 | h1
          · subst h1
            constructor
            · rcases hex : st.fs.lookup u with _ | τ0
              · rw [hex] at hmiss
                simp at hmiss
              · obtain ⟨v1, hl1, _⟩ := hgrow u τ0 hex
                exact ⟨v1, hl1⟩
            · have hw : stw.fs.lookup (_change_extension u _object_ext) = some st.now := by
                rw [hstw]
                exact write_lookup_self _ _
              obtain ⟨v2, hl2, _⟩ := hg2 _ _ hw
              rw [hl2]
              rfl
          · exact hok2 b' hb' u h1
        · intro hb
          cases r3 with
          | ok b' =>
            injection h with h1 h2
            rw [← h2] at hb
            simp at hb
          | error m =>
            injection h with h1 h2
            rw [← h2] at hb
            simp at hb
      · rw [if_neg hstale] at h
        obtain ⟨hv2, hn2, hg2, hok2, hfalse2⟩ :=
          ih (st.addEvent (.sourceUpToDate t0.name source)) st' r2 hv h
        have hcond : _cmp_timestamp (_get_opt_mod_time st.fs source) tts = false ∧
            (st.fs.lookup (_change_extension source _object_ext)).isNone = false := by
          rw [Bool.not_eq_true] at hstale
          constructor
          · rcases hx : _cmp_timestamp (_get_opt_mod_time st.fs source) tts
            · rfl
            · rw [hx] at hstale
              simp at hstale
          · rcases hx : (st.fs.lookup (_change_extension source _object_ext)).isNone
            · rfl
            · rw [hx] at hstale
              simp at hstale
        refine ⟨hv2, hn2, hg2, ?_, ?_⟩
        · intro b hb u hu
          rcases List.mem_cons.mp hu with h1 | h1
          · subst h1
            constructor
            · rcases hex : st.fs.lookup u with _ | τ0
              · rw [hex] at hmiss
                simp at hmiss
              · obtain ⟨v1, hl1, _⟩ := hg2 u τ0 hex
                exact ⟨v1, hl1⟩
            · rcases hex : st.fs.lookup (_change_extension u _object_ext) with _ | v0
              · rw [hex] at hcond
                simp at hcond
              · obtain ⟨v1, hl1, _⟩ := hg2 _ v0 hex
                rw [hl1]
                rfl
          · exact hok2 b hb u h1
        · intro hb
          obtain ⟨hfs, hrest⟩ := hfalse2 hb
          refine ⟨hfs, ?_⟩
          intro u hu
          rcases List.mem_cons.mp hu with h1 | h1
          · subst h1
            rcases hex : st.fs.lookup u with _ | τ0
            · rw [hex] at hmiss
              simp at hmiss
            · refine ⟨τ0, rfl, ?_, ?_⟩
              · have : _get_opt_mod_time st.fs u = τ0 := by
                  simp [_get_opt_mod_time, hex]
                rw [← this]
                exact hcond.1
              · rcases hex2 : st.fs.lookup (_change_extension u _object_ext) with _ | v0
                · rw [hex2] at hcond
                  simp at hcond
                · rfl
          · exact hrest u h1

/-- Strong specification of the archive/link step: it preserves world
validity, only advances the clock, never deletes files nor dates them
backwards, and on success the target's output artifact carries the clock
value at entry. -/
theorem linkStep_strong (env : Env) (r : Target) (st st' : S) (res3 : Except String Unit)
    (h : linkStep env r st = (st', res3)) (hv : ValidS st) :
    ValidS st' ∧ st.now ≤ st'.now ∧
    (∀ p v, st.fs.lookup p = some v → ∃ v', st'.fs.lookup p = some v' ∧ v ≤ v') ∧
    (∀ u, res3 = .ok u → st'.fs.lookup (get_out_path r) = some st.now) := by
  simp only [linkStep] at h
  rcases hc : collectLink env r.deps (r.sources.map (fun s => _change_extension s ".o"), [])
    with m | ⟨objs, links⟩
  · rw [hc] at h
    dsimp only at h
    injection h with h1 h2
    subst h1
    refine ⟨hv, le_refl _, fun p v hl => ⟨v, hl, le_refl v⟩, ?_⟩
    intro u hu
    rw [← h2] at hu
    simp at hu
  · rw [hc] at h
    dsimp only at h
    injection h with h1 h2
    subst h1
    refine ⟨?_, ?_, ?_, ?_⟩
    · exact valid_addEvent _ _ (valid_write _ _ hv)
    · simp only [S.addEvent, S.write]
      omega
    · intro p v hl
      exact write_lookup_grow _ (get_out_path r) hv p v hl
    · intro u _
      exact write_lookup_self _ _

/-- Strong specification of the dependency walk, parametrized by the
behaviour of the recursive build of a registered dependency. -/
theorem buildDepsAux_strong (env : Env) (build1 : Target → S → S × Except String Bool)
    (hb : ∀ d dep st0 st0' res0, env.targets.lookup d = some dep → ValidS st0 →
      build1 dep st0 = (st0', res0) →
      ValidS st0' ∧ st0.now ≤ st0'.now ∧
      (∀ p v, st0.fs.lookup p = some v → ∃ v', st0'.fs.lookup p = some v' ∧ v ≤ v') ∧
      (∀ p, p ∉ writtenPaths env → st0'.fs.lookup p = st0.fs.lookup p)) :
    ∀ (deps : List String) (st st1 : S) (res1 : Except String Bool),
      ValidS st → buildDepsAux build1 env deps st = (st1, res1) →
      ValidS st1 ∧ st.now ≤ st1.now ∧
      (∀ p v, st.fs.lookup p = some v → ∃ v', st1.fs.lookup p = some v' ∧ v ≤ v') ∧
      (∀ p, p ∉ writtenPaths env → st1.fs.lookup p = st.fs.lookup p) := by
  intro deps
  induction deps with
  | nil =>
    intro st st1 res1 hv h
    simp only [buildDepsAux] at h
    injection h with h1 h2
    subst h1
    exact ⟨hv, le_refl _, fun p v hl => ⟨v, hl, le_refl v⟩, fun p _ => rfl⟩
  | cons d rest ih =>
    intro st st1 res1 hv h
    simp only [buildDepsAux] at h
    rcases hl : env.targets.lookup d with _ | dep
    · rw [hl] at h
      dsimp only at h
      rcases he : env.external_dependencies.lookup d with _ | ed
      · rw [he] at h
        dsimp only at h
        injection h with h1 h2
        subst h1
        exact ⟨hv, le_refl _, fun p v hl2 => ⟨v, hl2, le_refl v⟩, fun p _ => rfl⟩
      · rw [he] at h
        dsimp only at h
        exact ih st st1 res1 hv h
    · rw [hl] at h
      dsimp only at h
      rcases hrec : build1 dep (st.addEvent (.checkingDep d)) with ⟨stA, resA⟩
      rw [hrec] at h
      obtain ⟨hvA, hnA, hgA, hoA⟩ :=
        hb d dep (st.addEvent (.checkingDep d)) stA resA hl hv hrec
      cases resA with
      | error m =>
        dsimp only at h
        injection h with h1 h2
        subst h1
        exact ⟨hvA, hnA, hgA, hoA⟩
      | ok rA =>
        dsimp only at h
        rcases hrest : buildDepsAux build1 env rest stA with ⟨stB, resB⟩
        rw [hrest] at h
        obtain ⟨hvB, hnB, hgB, hoB⟩ := ih stA stB resB hvA hrest
        have hfin : ValidS stB ∧ st.now ≤ stB.now ∧
            (∀ p v, st.fs.lookup p = some v → ∃ v', stB.fs.lookup p = some v' ∧ v ≤ v') ∧
            (∀ p, p ∉ writtenPaths env → stB.fs.lookup p = st.fs.lookup p) := by
          refine ⟨hvB, le_trans hnA hnB, ?_, ?_⟩
          · intro p v hl2
            obtain ⟨v1, hl3, hle3⟩ := hgA p v hl2
            obtain ⟨v2, hl4, hle4⟩ := hgB p v1 hl3
            exact ⟨v2, hl4, le_trans hle3 hle4⟩
          · intro p hp
            rw [hoB p hp, hoA p hp]
            rfl
        cases resB with
        | ok rB =>
          dsimp only at h
          injection h with h1 h2
          subst h1
          exact hfin
        | error mB =>
          dsimp only at h
          injection h with h1 h2
          subst h1
          exact hfin

/-- Strong specification of a recursive build step: world validity is
preserved, the clock only advances, no file is deleted or dated
backwards, and paths that are neither artifacts of the built target nor
artifacts of any registered target are untouched. -/
theorem opt_build_strong (env : Env) (force : Bool) :
    ∀ (fuel : Nat) (r : Target) (ts : Int) (st st' : S) (res : Except String Bool),
      ValidS st →
      _opt_build env fuel r force ts st = (st', res) →
      ValidS st' ∧ st.now ≤ st'.now ∧
      (∀ p v, st.fs.lookup p = some v → ∃ v', st'.fs.lookup p = some v' ∧ v ≤ v') ∧
      (∀ p, p ∉ writtenOf r → p ∉ writtenPaths env → st'.fs.lookup p = st.fs.lookup p) := by
  intro fuel
  induction fuel with
  | zero =>
    intro r ts st st' res hv h
    simp only [_opt_build] at h
    injection h with h1 h2
    subst h1
    exact ⟨hv, le_refl _, fun p v hl => ⟨v, hl, le_refl v⟩, fun p _ _ => rfl⟩
  | succ fuel ih =>
    intro r ts st st' res hv h
    simp only [_opt_build] at h
    rcases hdeps : buildDepsAux (fun dep st0 => _opt_build env fuel dep force
        (_get_opt_mod_time st.fs (get_out_path r)) st0) env r.deps st with ⟨st1, res1⟩
    rw [hdeps] at h
    obtain ⟨hv1, hn1, hg1, ho1⟩ := buildDepsAux_strong env _
      (by
        intro d dep st0 st0' res0 hld hv0 h0
        obtain ⟨hva, hna, hga, hoa⟩ := ih dep _ st0 st0' res0 hv0 h0
        refine ⟨hva, hna, hga, ?_⟩
        intro p hp
        refine hoa p ?_ hp
        intro hmem
        exact hp (writtenOf_subset_writtenPaths env d dep (lookup_mem _ _ _ hld) p hmem))
      r.deps st st1 res1 hv hdeps
    cases res1 with
    | error m1 =>
      dsimp only at h
      injection h with h1 h2
      subst h1
      refine ⟨hv1, hn1, hg1, fun p _ hp2 => ho1 p hp2⟩
    | ok dr =>
      dsimp only at h
      rcases hsrc : buildSources env r force (_get_opt_mod_time st.fs (get_out_path r))
          r.sources st1 with ⟨st2, res2⟩
      rw [hsrc] at h
      obtain ⟨hv2, hn2, hg2, _, _⟩ := buildSources_strong env r force _ r.sources st1 st2 res2 hv1 hsrc
      have ho2 : ∀ p, p ∉ writtenOf r → st2.fs.lookup p = st1.fs.lookup p := by
        intro p hp
        refine buildSources_fs_lookup env r force _ p r.sources st1 st2 res2 ?_ hsrc
        intro u hu he
        exact hp (he ▸ List.mem_cons_of_mem _ (List.mem_map.mpr ⟨u, hu, rfl⟩))
      cases res2 with
      | error m2 =>
        dsimp only at h
        injection h with h1 h2
        subst h1
        refine ⟨hv2, le_trans hn1 hn2, ?_, ?_⟩
        · intro p v hl
          obtain ⟨v1, hl1, hle1⟩ := hg1 p v hl
          obtain ⟨v2, hl2, hle2⟩ := hg2 p v1 hl1
          exact ⟨v2, hl2, le_trans hle1 hle2⟩
        · intro p hp1 hp2
          rw [ho2 p hp1, ho1 p hp2]
      | ok sr =>
        dsimp only at h
        have hcompose12 : (∀ p v, st.fs.lookup p = some v →
            ∃ v', st2.fs.lookup p = some v' ∧ v ≤ v') := by
          intro p v hl
          obtain ⟨v1, hl1, hle1⟩ := hg1 p v hl
          obtain ⟨v2, hl2, hle2⟩ := hg2 p v1 hl1
          exact ⟨v2, hl2, le_trans hle1 hle2⟩
        by_cases hif : (decide (_get_opt_mod_time st.fs (get_out_path r) < 0)
            || dr || sr || force) = true
        · rw [if_pos hif] at h
          rcases hlink : linkStep env r st2 with ⟨st3, res3⟩
          rw [hlink] at h
          obtain ⟨hv3, hn3, hg3, _⟩ := linkStep_strong env r st2 st3 res3 hlink hv2
          obtain ⟨ho3, _⟩ := linkStep_shape env r st2 st3 res3 hlink
          have hfin : ValidS st3 ∧ st.now ≤ st3.now ∧
              (∀ p v, st.fs.lookup p = some v → ∃ v', st3.fs.lookup p = some v' ∧ v ≤ v') ∧
              (∀ p, p ∉ writtenOf r → p ∉ writtenPaths env →
                st3.fs.lookup p = st.fs.lookup p) := by
            refine ⟨hv3, le_trans (le_trans hn1 hn2) hn3, ?_, ?_⟩
            · intro p v hl
              obtain ⟨v2, hl2, hle2⟩ := hcompose12 p v hl
              obtain ⟨v3, hl3, hle3⟩ := hg3 p v2 hl2
              exact ⟨v3, hl3, le_trans hle2 hle3⟩
            · intro p hp1 hp2
              rw [ho3 p (fun he => hp1 (he ▸ List.mem_cons_self _ _)),
                ho2 p hp1, ho1 p hp2]
          cases res3 with
          | ok u =>
            injection h with h1 h2
            subst h1
            exact hfin
          | error m3 =>
            injection h with h1 h2
            subst h1
            exact hfin
        · rw [if_neg hif] at h
          injection h with h1 h2
          subst h1
          refine ⟨hv2, le_trans hn1 hn2, hcompose12, ?_⟩
          intro p hp1 hp2
          have : (st2.addEvent (Event.targetUpToDate r.name)).fs = st2.fs := rfl
          rw [this, ho2 p hp1, ho1 p hp2]

/-- Source paths do not collide with build products, spelled out per
kind of source. -/
theorem separated_source_not_written (env : Env) (root : Target)
    (h : Separated env root) :
    (∀ u ∈ root.sources, u ∉ writtenOf root ∧ u ∉ writtenPaths env) ∧
    (∀ k tg, (k, tg) ∈ env.targets → ∀ u ∈ tg.sources,
      u ∉ writtenOf root ∧ u ∉ writtenPaths env) := by
  constructor
  · intro u hu
    have hall : u ∈ allSourcePaths env root := by
      simp only [allSourcePaths]
      exact List.mem_append_left _ hu
    have := h u hall
    constructor
    · intro hx
      exact this (List.mem_append_left _ hx)
    · intro hx
      exact this (List.mem_append_right _ hx)
  · intro k tg hk u hu
    have hall : u ∈ allSourcePaths env root := by
      simp only [allSourcePaths]
      refine List.mem_append_right _ ?_
      simp only [List.mem_flatten]
      exact ⟨tg.sources, List.mem_map.mpr ⟨(k, tg), hk, rfl⟩, hu⟩
    have := h u hall
    constructor
    · intro hx
      exact this (List.mem_append_left _ hx)
    · intro hx
      exact this (List.mem_append_right _ hx)

/-- Up-to-dateness survives filesystem evolution that never deletes
files nor dates them backwards and leaves every source file (of the
target and of all registered targets) untouched. -/
theorem up_to_date_preserved (env : Env) :
    ∀ (fuel : Nat) (r : Target) (fs fs' : List (String × Int)),
      UpToDate env fuel fs r →
      (∀ p v, fs.lookup p = some v → ∃ v', fs'.lookup p = some v' ∧ v ≤ v') →
      (∀ u ∈ r.sources, fs'.lookup u = fs.lookup u) →
      (∀ k tg, (k, tg) ∈ env.targets → ∀ u ∈ tg.sources, fs'.lookup u = fs.lookup u) →
      UpToDate env fuel fs' r := by
  intro fuel
  induction fuel with
  | zero =>
    intro r fs fs' h
    simp only [UpToDate] at h
  | succ fuel ih =>
    intro r fs fs' h hgrow hsrc hall
    simp only [UpToDate] at h ⊢
    obtain ⟨⟨T, hT, hT0, hsrcs⟩, hdeps⟩ := h
    obtain ⟨T', hT', hle⟩ := hgrow _ T hT
    refine ⟨⟨T', hT', le_trans hT0 hle, ?_⟩, ?_⟩
    · intro u hu
      obtain ⟨⟨τ, hτ, hτ0, hτT⟩, hobj⟩ := hsrcs u hu
      refine ⟨⟨τ, ?_, hτ0, le_trans hτT hle⟩, ?_⟩
      · rw [hsrc u hu]
        exact hτ
      · rcases hx : fs.lookup (_change_extension u _object_ext) with _ | v
        · rw [hx] at hobj
          simp at hobj
        · obtain ⟨v', hv', _⟩ := hgrow _ v hx
          rw [hv']
          rfl
    · intro d hd
      have hthis := hdeps d hd
      rcases hl : env.targets.lookup d with _ | dep
      · rw [hl] at hthis
        simp only [hl]
        exact hthis
      · rw [hl] at hthis
        simp only [hl]
        exact ih dep fs fs' hthis hgrow
          (fun u hu => hall d dep (lookup_mem _ _ _ hl) u hu) hall

/-- A successful build leaves the built subgraph up to date: after
`_opt_build` returns without error, the target's output exists and is no
older than any of its sources, every object file is present, and every
registered dependency is recursively in the same state.  Requires the
separation hypothesis (no source path collides with any build-product
path) and a valid world. -/
theorem build_up_to_date (env : Env) (root : Target) (force : Bool)
    (h_sep : Separated env root) :
    ∀ (fuel : Nat) (r : Target), (r = root ∨ ∃ k, (k, r) ∈ env.targets) →
    ∀ (ts : Int) (st st' : S) (b : Bool),
      ValidS st →
      _opt_build env fuel r force ts st = (st', .ok b) →
      UpToDate env fuel st'.fs r := by
  obtain ⟨hsep_root, hsep_reg⟩ := separated_source_not_written env root h_sep
  intro fuel
  induction fuel with
  | zero =>
    intro r hr ts st st' b hv h
    simp only [_opt_build] at h
    injection h with h1 h2
    simp at h2
  | succ fuel ih =>
    intro r hr ts st st' b hv h
    have hsrc_not_written : ∀ u ∈ r.sources, u ∉ writtenOf root ∧ u ∉ writtenPaths env := by
      rcases hr with hr | ⟨k, hk⟩
      · rw [hr]
        exact hsep_root
      · exact fun u hu => hsep_reg k r hk u hu
    have hWr : ∀ p ∈ writtenOf r, p ∈ writtenOf root ∨ p ∈ writtenPaths env := by
      rcases hr with hr | ⟨k, hk⟩
      · rw [hr]
        exact fun p hp => Or.inl hp
      · exact fun p hp => Or.inr (writtenOf_subset_writtenPaths env k r hk p hp)
    simp only [_opt_build] at h
    rcases hdeps : buildDepsAux (fun dep st0 => _opt_build env fuel dep force
        (_get_opt_mod_time st.fs (get_out_path r)) st0) env r.deps st with ⟨st1, res1⟩
    rw [hdeps] at h
    have hbstrong : ∀ (d : String) (dep : Target) (st0 st0' : S)
        (res0 : Except String Bool), env.targets.lookup d = some dep → ValidS st0 →
        _opt_build env fuel dep force (_get_opt_mod_time st.fs (get_out_path r)) st0 =
          (st0', res0) →
        ValidS st0' ∧ st0.now ≤ st0'.now ∧
        (∀ p v, st0.fs.lookup p = some v → ∃ v', st0'.fs.lookup p = some v' ∧ v ≤ v') ∧
        (∀ p, p ∉ writtenPaths env → st0'.fs.lookup p = st0.fs.lookup p) := by
      intro d dep st0 st0' res0 hld hv0 h0
      obtain ⟨hva, hna, hga, hoa⟩ := opt_build_strong env force fuel dep _ st0 st0' res0 hv0 h0
      refine ⟨hva, hna, hga, ?_⟩
      intro p hp
      exact hoa p (fun hm =>
        hp (writtenOf_subset_writtenPaths env d dep (lookup_mem _ _ _ hld) p hm)) hp
    obtain ⟨hv1, hn1, hg1, ho1⟩ :=
      buildDepsAux_strong env _ hbstrong r.deps st st1 res1 hv hdeps
    cases res1 with
    | error m1 =>
      dsimp only at h
      injection h with h1 h2
      simp at h2
    | ok dr =>
      dsimp only at h
      have loop : ∀ (deps : List String) (st0 st1' : S) (dr' : Bool), ValidS st0 →
          buildDepsAux (fun dep stx => _opt_build env fuel dep force
            (_get_opt_mod_time st.fs (get_out_path r)) stx) env deps st0 = (st1', .ok dr') →
          (∀ d dep, d ∈ deps → env.targets.lookup d = some dep →
            UpToDate env fuel st1'.fs dep) ∧
          (∀ d ∈ deps, env.targets.lookup d = none →
            (env.external_dependencies.lookup d).isSome) := by
        intro deps
        induction deps with
        | nil =>
          intro st0 st1' dr' hv0 h0
          exact ⟨fun d dep hd => absurd hd (List.not_mem_nil d),
            fun d hd => absurd hd (List.not_mem_nil d)⟩
        | cons d rest ihl =>
          intro st0 st1' dr' hv0 h0
          simp only [buildDepsAux] at h0
          rcases hl : env.targets.lookup d with _ | dep
          · rw [hl] at h0
            dsimp only at h0
            rcases he : env.external_dependencies.lookup d with _ | ed
            · rw [he] at h0
              dsimp only at h0
              injection h0 with ha hb
              simp at hb
            · rw [he] at h0
              dsimp only at h0
              obtain ⟨hA, hB⟩ := ihl st0 st1' dr' hv0 h0
              refine ⟨?_, ?_⟩
              · intro d' dep' hd' hl'
                rcases List.mem_cons.mp hd' with h1 | h1
                · subst h1
                  rw [hl'] at hl
                  exact absurd hl (by simp)
                · exact hA d' dep' h1 hl'
              · intro d' hd' hl'
                rcases List.mem_cons.mp hd' with h1 | h1
                · subst h1
                  rw [he]
                  rfl
                · exact hB d' h1 hl'
          · rw [hl] at h0
            dsimp only at h0
            rcases hrec : _opt_build env fuel dep force
                (_get_opt_mod_time st.fs (get_out_path r))
                (st0.addEvent (.checkingDep d)) with ⟨stA, resA⟩
            rw [hrec] at h0
            cases resA with
            | error m =>
              dsimp only at h0
              injection h0 with ha hb
              simp at hb
            | ok rA =>
              dsimp only at h0
              rcases hrest : buildDepsAux (fun dep stx => _opt_build env fuel dep force
                  (_get_opt_mod_time st.fs (get_out_path r)) stx) env rest stA
                with ⟨stB, resB⟩
              rw [hrest] at h0
              cases resB with
              | error mB =>
                dsimp only at h0
                injection h0 with ha hb
                simp at hb
              | ok rB =>
                dsimp only at h0
                injection h0 with ha hb
                subst ha
                have hvA0 : ValidS (st0.addEvent (.checkingDep d)) := hv0
                have hutdA : UpToDate env fuel stA.fs dep :=
                  ih dep (Or.inr ⟨d, lookup_mem _ _ _ hl⟩) _ _ stA rA hvA0 hrec
                obtain ⟨hvA, hnA, hgA, hoA⟩ := opt_build_strong env force fuel dep _
                  (st0.addEvent (.checkingDep d)) stA (.ok rA) hvA0 hrec
                obtain ⟨hvB, hnB, hgB, hoB⟩ :=
                  buildDepsAux_strong env _ hbstrong rest stA stB (.ok rB) hvA hrest
                obtain ⟨hArest, hBrest⟩ := ihl stA stB rB hvA hrest
                refine ⟨?_, ?_⟩
                · intro d' dep' hd' hl'
                  rcases List.mem_cons.mp hd' with h1 | h1
                  · subst h1
                    rw [hl] at hl'
                    injection hl' with heq
                    subst heq
                    refine up_to_date_preserved env fuel dep stA.fs stB.fs hutdA hgB ?_ ?_
                    · intro u hu
                      exact hoB u (hsep_reg _ dep (lookup_mem _ _ _ hl) u hu).2
                    · intro k tg hk u hu
                      exact hoB u (hsep_reg k tg hk u hu).2
                  · exact hArest d' dep' h1 hl'
                · intro d' hd' hl'
                  rcases List.mem_cons.mp hd' with h1 | h1
                  · subst h1
                    rw [hl] at hl'
                    exact absurd hl' (by simp)
                  · exact hBrest d' h1 hl'
      obtain ⟨hdepsUTD, hdepsExt⟩ := loop r.deps st st1 dr hv hdeps
      rcases hsrc2 : buildSources env r force (_get_opt_mod_time st.fs (get_out_path r))
          r.sources st1 with ⟨st2, res2⟩
      rw [hsrc2] at h
      obtain ⟨hv2, hn2, hg2, hoksrc, hfalse⟩ :=
        buildSources_strong env r force _ r.sources st1 st2 res2 hv1 hsrc2
      have ho2 : ∀ q, q ∉ writtenOf root → q ∉ writtenPaths env →
          st2.fs.lookup q = st1.fs.lookup q := by
        intro q hq1 hq2
        refine buildSources_fs_lookup env r force _ q r.sources st1 st2 res2 ?_ hsrc2
        intro u hu he
        have hmem : q ∈ writtenOf r :=
          he ▸ List.mem_cons_of_mem _ (List.mem_map.mpr ⟨u, hu, rfl⟩)
        rcases hWr q hmem with hx | hx
        · exact hq1 hx
        · exact hq2 hx
      cases res2 with
      | error m2 =>
        dsimp only at h
        injection h with h1 h2
        simp at h2
      | ok sr =>
        dsimp only at h
        have hdepsUTD2 : ∀ d dep, d ∈ r.deps → env.targets.lookup d = some dep →
            UpToDate env fuel st2.fs dep := by
          intro d dep hd hl'
          refine up_to_date_preserved env fuel dep st1.fs st2.fs
            (hdepsUTD d dep hd hl') hg2 ?_ ?_
          · intro u hu
            exact ho2 u (hsep_reg d dep (lookup_mem _ _ _ hl') u hu).1
              (hsep_reg d dep (lookup_mem _ _ _ hl') u hu).2
          · intro k tg hk u hu
            exact ho2 u (hsep_reg k tg hk u hu).1 (hsep_reg k tg hk u hu).2
        by_cases hif : (decide (_get_opt_mod_time st.fs (get_out_path r) < 0)
            || dr || sr || force) = true
        · rw [if_pos hif] at h
          rcases hlink : linkStep env r st2 with ⟨st3, res3⟩
          rw [hlink] at h
          cases res3 with
          | error m3 =>
            injection h with h1 h2
            simp at h2
          | ok u =>
            injection h with h1 h2
            subst h1
            obtain ⟨hv3, hn3, hg3, hself⟩ := linkStep_strong env r st2 st3 (.ok u) hlink hv2
            obtain ⟨ho3, _⟩ := linkStep_shape env r st2 st3 (.ok u) hlink
            simp only [UpToDate]
            refine ⟨⟨st2.now, hself u rfl, hv2.1, ?_⟩, ?_⟩
            · intro u2 hu2
              have huneq : u2 ≠ get_out_path r := by
                intro he
                have hmem : u2 ∈ writtenOf r := he ▸ List.mem_cons_self _ _
                rcases hWr u2 hmem with hx | hx
                · exact (hsrc_not_written u2 hu2).1 hx
                · exact (hsrc_not_written u2 hu2).2 hx
              obtain ⟨⟨τ, hτ⟩, hobj⟩ := hoksrc sr rfl u2 hu2
              have hτ3 : st3.fs.lookup u2 = some τ := by
                rw [ho3 u2 huneq]
                exact hτ
              have hbound := valid_lookup st2 hv2 u2 τ hτ
              refine ⟨⟨τ, hτ3, hbound.1, le_of_lt hbound.2⟩, ?_⟩
              rcases hx : st2.fs.lookup (_change_extension u2 _object_ext) with _ | v
              · rw [hx] at hobj
                simp at hobj
              · obtain ⟨v', hv', _⟩ := hg3 _ v hx
                rw [hv']
                rfl
            · intro d hd
              rcases hl' : env.targets.lookup d with _ | dep
              · simp only [hl']
                exact hdepsExt d hd hl'
              · simp only [hl']
                refine up_to_date_preserved env fuel dep st2.fs st3.fs
                  (hdepsUTD2 d dep hd hl') hg3 ?_ ?_
                · intro u3 hu3
                  refine ho3 u3 ?_
                  intro he
                  have hmem : u3 ∈ writtenOf r := he ▸ List.mem_cons_self _ _
                  rcases hWr u3 hmem with hx | hx
                  · exact (hsep_reg d dep (lookup_mem _ _ _ hl') u3 hu3).1 hx
                  · exact (hsep_reg d dep (lookup_mem _ _ _ hl') u3 hu3).2 hx
                · intro k tg hk u3 hu3
                  refine ho3 u3 ?_
                  intro he
                  have hmem : u3 ∈ writtenOf r := he ▸ List.mem_cons_self _ _
                  rcases hWr u3 hmem with hx | hx
                  · exact (hsep_reg k tg hk u3 hu3).1 hx
                  · exact (hsep_reg k tg hk u3 hu3).2 hx
        · rw [if_neg hif] at h
          injection h with h1 h2
          have hflags : (decide (_get_opt_mod_time st.fs (get_out_path r) < 0)
              || dr || sr || force) = false := by
            rcases hx : (decide (_get_opt_mod_time st.fs (get_out_path r) < 0)
                || dr || sr || force)
            · rfl
            · exact absurd hx hif
          simp only [Bool.or_eq_false_iff] at hflags
          obtain ⟨⟨⟨hts, hdr⟩, hsr⟩, hforce⟩ := hflags
          obtain ⟨hfs_eq, hsrcfacts⟩ := hfalse (by rw [hsr])
          rcases hx : st.fs.lookup (get_out_path r) with _ | T0
          · exfalso
            have : _get_opt_mod_time st.fs (get_out_path r) = -1 := by
              simp [_get_opt_mod_time, hx]
            rw [this] at hts
            simp at hts
          · have htts : _get_opt_mod_time st.fs (get_out_path r) = T0 := by
              simp [_get_opt_mod_time, hx]
            have hT0nonneg : 0 ≤ T0 := by
              rw [htts] at hts
              simpa using hts
            obtain ⟨T1, hT1, hT1le⟩ := hg1 _ T0 hx
            have hstfs : st'.fs = st1.fs := by
              rw [← h1]
              simp only [S.addEvent]
              exact hfs_eq
            simp only [UpToDate]
            refine ⟨⟨T1, by rw [hstfs]; exact hT1, le_trans hT0nonneg hT1le, ?_⟩, ?_⟩
            · intro u2 hu2
              obtain ⟨τ, hτ, hcmp, hobj⟩ := hsrcfacts u2 hu2
              have hcmp2 : 0 ≤ τ ∧ τ ≤ _get_opt_mod_time st.fs (get_out_path r) := by
                simp only [_cmp_timestamp, Bool.or_eq_false_iff] at hcmp
                obtain ⟨hc1, hc2⟩ := hcmp
                constructor
                · simpa using hc1
                · have := of_decide_eq_false hc2
                  omega
              refine ⟨⟨τ, by rw [hstfs]; exact hτ, hcmp2.1, ?_⟩, ?_⟩
              · rw [htts] at hcmp2
                exact le_trans hcmp2.2 hT1le
              · rw [hstfs]
                exact hobj
            · intro d hd
              rcases hl' : env.targets.lookup d with _ | dep
              · simp only [hl']
                exact hdepsExt d hd hl'
              · simp only [hl']
                have := hdepsUTD d dep hd hl'
                rw [hstfs]
                exact this

/-- The source walk over sources that are all fresh (present, not stale,
object present), without force: no command is dispatched, the state only
gains up-to-date reports, and the flag is false. -/
theorem buildSources_all_fresh (env : Env) (t0 : Target) (tts : Int) :
    ∀ (sources : List String) (st0 : S),
      (∀ u ∈ sources, (∃ τ, st0.fs.lookup u = some τ ∧ _cmp_timestamp τ tts = false) ∧
        (st0.fs.lookup (_change_extension u _object_ext)).isSome) →
      ∃ Δ, buildSources env t0 false tts sources st0 =
        ({ st0 with events := st0.events ++ Δ }, .ok false) ∧
        ∀ e ∈ Δ, benign e = true := by
  intro sources
  induction sources with
  | nil =>
    intro st0 hfresh
    refine ⟨[], ?_, by simp⟩
    simp [buildSources]
  | cons source rest ih =>
    intro st0 hfresh
    obtain ⟨⟨τ, hτ, hcmp⟩, hobj⟩ := hfresh source (List.mem_cons_self _ _)
    have hmtime : _get_opt_mod_time st0.fs source = τ := by
      simp [_get_opt_mod_time, hτ]
    have hnotmiss : (st0.fs.lookup source).isNone = false := by
      rw [hτ]
      rfl
    have hobjn : (st0.fs.lookup (_change_extension source _object_ext)).isNone = false := by
      rcases hx : st0.fs.lookup (_change_extension source _object_ext) with _ | v
      · rw [hx] at hobj
        simp at hobj
      · rfl
    obtain ⟨Δ, hΔ, hben⟩ := ih (st0.addEvent (.sourceUpToDate t0.name source))
      (fun u hu => hfresh u (List.mem_cons_of_mem _ hu))
    refine ⟨Event.sourceUpToDate t0.name source :: Δ, ?_, ?_⟩
    · simp only [buildSources]
      rw [hnotmiss]
      simp only [Bool.false_eq_true, if_false]
      rw [hmtime, hcmp, hobjn]
      simp only [Bool.or_self, Bool.or_false, Bool.false_eq_true, if_false]
      rw [hΔ]
      simp [S.addEvent]
    · intro e he
      rcases List.mem_cons.mp he with h1 | h1
      · rw [h1]
        rfl
      · exact hben e h1

/-- A build step over an up-to-date subgraph is quiescent: it returns a
rebuild flag of false, issues no command, changes neither filesystem nor
clock, and its trace consists of progress and up-to-date reports only,
ending with the target's up-to-date report. -/
theorem up_to_date_build_quiescent (env : Env) :
    ∀ (fuel : Nat) (r : Target) (ts : Int) (st : S),
      UpToDate env fuel st.fs r →
      ∃ Δ, _opt_build env fuel r false ts st =
        ({ st with events := st.events ++ Δ }, .ok false) ∧
        (∀ e ∈ Δ, benign e = true) ∧
        Event.targetUpToDate r.name ∈ Δ := by
  intro fuel
  induction fuel with
  | zero =>
    intro r ts st hutd
    simp only [UpToDate] at hutd
  | succ fuel ih =>
    intro r ts st hutd
    simp only [UpToDate] at hutd
    obtain ⟨⟨T, hT, hT0, hsrcs⟩, hdeps⟩ := hutd
    have htts : _get_opt_mod_time st.fs (get_out_path r) = T := by
      simp [_get_opt_mod_time, hT]
    have loop : ∀ (deps : List String),
        (∀ d ∈ deps, match env.targets.lookup d with
          | some dep => UpToDate env fuel st.fs dep
          | none => (env.external_dependencies.lookup d).isSome = true) →
        ∀ (st0 : S), st0.fs = st.fs →
        ∃ Δ, buildDepsAux (fun dep stx => _opt_build env fuel dep false
            (_get_opt_mod_time st.fs (get_out_path r)) stx) env deps st0 =
          ({ st0 with events := st0.events ++ Δ }, .ok false) ∧
          ∀ e ∈ Δ, benign e = true := by
      intro deps
      induction deps with
      | nil =>
        intro _ st0 _
        refine ⟨[], ?_, by simp⟩
        simp [buildDepsAux]
      | cons d rest ihl =>
        intro hall st0 hfs0
        have hhead := hall d (List.mem_cons_self _ _)
        rcases hl : env.targets.lookup d with _ | dep
        · rw [hl] at hhead
          rcases he : env.external_dependencies.lookup d with _ | ed
          · rw [he] at hhead
            simp at hhead
          · obtain ⟨Δ, hΔ, hben⟩ := ihl
              (fun d' hd' => hall d' (List.mem_cons_of_mem _ hd')) st0 hfs0
            refine ⟨Δ, ?_, hben⟩
            simp only [buildDepsAux]
            rw [hl]
            dsimp only
            rw [he]
            dsimp only
            exact hΔ
        · rw [hl] at hhead
          have hutd' : UpToDate env fuel (st0.addEvent (.checkingDep d)).fs dep := by
            have : (st0.addEvent (.checkingDep d)).fs = st.fs := hfs0
            rw [this]
            exact hhead
          obtain ⟨Δd, hΔd, hbend, _⟩ :=
            ih dep (_get_opt_mod_time st.fs (get_out_path r))
              (st0.addEvent (.checkingDep d)) hutd'
          obtain ⟨Δr, hΔr, hbenr⟩ := ihl
            (fun d' hd' => hall d' (List.mem_cons_of_mem _ hd'))
            ({ st0.addEvent (.checkingDep d) with
              events := (st0.addEvent (.checkingDep d)).events ++ Δd }) hfs0
          refine ⟨(Event.checkingDep d :: Δd) ++ Δr, ?_, ?_⟩
          · simp only [buildDepsAux]
            rw [hl]
            dsimp only
            rw [hΔd]
            dsimp only
            rw [hΔr]
            dsimp only
            simp [S.addEvent, List.append_assoc]
          · intro e he2
            rcases List.mem_append.mp he2 with h1 | h1
            · rcases List.mem_cons.mp h1 with h2 | h2
              · rw [h2]
                rfl
              · exact hbend e h2
            · exact hbenr e h1
    obtain ⟨Δ1, hΔ1, hben1⟩ := loop r.deps hdeps st rfl
    have hfresh : ∀ u ∈ r.sources,
        (∃ τ, ({ st with events := st.events ++ Δ1 } : S).fs.lookup u = some τ ∧
          _cmp_timestamp τ (_get_opt_mod_time st.fs (get_out_path r)) = false) ∧
        (({ st with events := st.events ++ Δ1 } : S).fs.lookup
          (_change_extension u _object_ext)).isSome := by
      intro u hu
      obtain ⟨⟨τ, hτ, hτ0, hτT⟩, hobj⟩ := hsrcs u hu
      refine ⟨⟨τ, hτ, ?_⟩, hobj⟩
      rw [htts]
      simp only [_cmp_timestamp, Bool.or_eq_false_iff]
      constructor
      · simp
        omega
      · simp
        omega
    obtain ⟨Δ2, hΔ2, hben2⟩ := buildSources_all_fresh env r
      (_get_opt_mod_time st.fs (get_out_path r)) r.sources
      ({ st with events := st.events ++ Δ1 }) hfresh
    have hTd : decide (_get_opt_mod_time st.fs (get_out_path r) < 0) = false := by
      rw [htts]
      simp
      omega
    refine ⟨Δ1 ++ (Δ2 ++ [Event.targetUpToDate r.name]), ?_, ?_, ?_⟩
    · simp only [_opt_build]
      rw [hΔ1]
      dsimp only
      rw [hΔ2]
      dsimp only
      rw [hTd]
      simp only [Bool.or_false, Bool.false_or, Bool.false_eq_true, if_false]
      simp [S.addEvent, List.append_assoc]
    · intro e he2
      rcases List.mem_append.mp he2 with h1 | h1
      · exact hben1 e h1
      · rcases List.mem_append.mp h1 with h2 | h2
        · exact hben2 e h2
        · rcases List.mem_cons.mp h2 with h3 | h3
          · rw [h3]
            rfl
          · simp at h3
    · refine List.mem_append.mpr (Or.inr ?_)
      refine List.mem_append.mpr (Or.inr ?_)
      exact List.mem_cons_self _ _

/-! Claim C4. -/

/-- C4 counterexample: idempotence fails for a graph in which one
target's written artifact path coincides with another target's source
path.  StaticLib "A" declares the FILE "r" as its source; Executable "r"
(whose output path is "r") depends on "A".  The first build compiles
"r", archives "A.a" and links the output "r", which makes the source "r"
newer than "A.a"; the immediate second build therefore compiles "r"
again — the claim's "issues zero compile and zero link commands on the
second call" is false at this graph and filesystem state. -/
theorem C4_counterexample :
    build (Env.mk "gcc"
        [("A", Target.mk "A" .STATIC_LIB "" [] ["r"] [] []),
         ("r", Target.mk "r" .EXECUTABLE "" ["A"] [] [] [])] []) 5
        (Target.mk "r" .EXECUTABLE "" ["A"] [] [] []) false
        (S.mk [("r", 0)] 10 []) =
      (S.mk [("r", 12), ("A.a", 11), ("r.o", 10), ("r", 0)] 13
        [.checkingDep "A", .compiling "A" "r",
         .compileCmd "A" ["gcc", "-c", "r", "-o", "r.o"],
         .buildingTarget "A", .linkCmd "A" ["ar", "rcs", "A.a", "r.o"],
         .completed "A", .buildingTarget "r",
         .linkCmd "r" ["gcc", "A.a", "-o", "r"], .completed "r"],
       .ok true) ∧
    Event.compileCmd "A" ["gcc", "-c", "r", "-o", "r.o"] ∈
      (build (Env.mk "gcc"
        [("A", Target.mk "A" .STATIC_LIB "" [] ["r"] [] []),
         ("r", Target.mk "r" .EXECUTABLE "" ["A"] [] [] [])] []) 5
        (Target.mk "r" .EXECUTABLE "" ["A"] [] [] []) false
        (S.mk [("r", 12), ("A.a", 11), ("r.o", 10), ("r", 0)] 13 [])).1.events := by
  exact ⟨rfl, by decide⟩

/-- C4 (amended): provided no declared source path of the root or of any
registered target coincides with a build-product path (an object file or
output artifact path), and the world is valid (clock and timestamps
consistent, no file dated in the future), then after a first build
completes without error, an immediate second build of the same target
issues no command at all: it returns a rebuild flag of false and extends
the trace only by progress and up-to-date reports (`benign` events — no
compile command, no link command, no "building" report), ending with the
root's up-to-date report.  Since every node visit ends in either a
"building" or an "up to date" report and no "building" report occurs,
every node visited in the subgraph is reported up to date. -/
theorem C4_second_build_quiescent
    (env : Env) (root : Target) (fuel : Nat) (force : Bool) (st st1 : S) (b : Bool)
    (h_sep : Separated env root)
    (h_valid : ValidS st)
    (h1 : build env fuel root force st = (st1, .ok b)) :
    ∃ Δ, build env fuel root false st1 =
      ({ st1 with events := st1.events ++ Δ }, .ok false) ∧
      (∀ e ∈ Δ, benign e = true) ∧
      Event.targetUpToDate root.name ∈ Δ := by
  have hutd : UpToDate env fuel st1.fs root :=
    build_up_to_date env root force h_sep fuel root (Or.inl rfl) _ st st1 b h_valid h1
  exact up_to_date_build_quiescent env fuel root _ st1 hutd

/-- C4 witness: a separated two-target graph (Executable "r" with source
`r.c` depending on StaticLib "A" with source `a.c`).  The first build
rebuilds everything; the theorem yields a quiescent second build. -/
theorem C4_second_build_quiescent_witness :
    ∃ Δ, build (Env.mk "gcc"
        [("A", Target.mk "A" .STATIC_LIB "" [] ["a.c"] [] []),
         ("r", Target.mk "r" .EXECUTABLE "" ["A"] ["r.c"] [] [])] []) 5
        (Target.mk "r" .EXECUTABLE "" ["A"] ["r.c"] [] []) false
        (S.mk [("r", 8), ("r.o", 7), ("A.a", 6), ("a.o", 5), ("a.c", 0), ("r.c", 1)] 9
          [.checkingDep "A", .compiling "A" "a.c",
           .compileCmd "A" ["gcc", "-c", "a.c", "-o", "a.o"],
           .buildingTarget "A", .linkCmd "A" ["ar", "rcs", "A.a", "a.o"],
           .completed "A", .compiling "r" "r.c",
           .compileCmd "r" ["gcc", "-c", "r.c", "-o", "r.o"],
           .buildingTarget "r", .linkCmd "r" ["gcc", "r.o", "A.a", "-o", "r"],
           .completed "r"]) =
      ({ (S.mk [("r", 8), ("r.o", 7), ("A.a", 6), ("a.o", 5), ("a.c", 0), ("r.c", 1)] 9
          [.checkingDep "A", .compiling "A" "a.c",
           .compileCmd "A" ["gcc", "-c", "a.c", "-o", "a.o"],
           .buildingTarget "A", .linkCmd "A" ["ar", "rcs", "A.a", "a.o"],
           .completed "A", .compiling "r" "r.c",
           .compileCmd "r" ["gcc", "-c", "r.c", "-o", "r.o"],
           .buildingTarget "r", .linkCmd "r" ["gcc", "r.o", "A.a", "-o", "r"],
           .completed "r"]) with
        events := (S.mk [("r", 8), ("r.o", 7), ("A.a", 6), ("a.o", 5), ("a.c", 0), ("r.c", 1)] 9
          [.checkingDep "A", .compiling "A" "a.c",
           .compileCmd "A" ["gcc", "-c", "a.c", "-o", "a.o"],
           .buildingTarget "A", .linkCmd "A" ["ar", "rcs", "A.a", "a.o"],
           .completed "A", .compiling "r" "r.c",
           .compileCmd "r" ["gcc", "-c", "r.c", "-o", "r.o"],
           .buildingTarget "r", .linkCmd "r" ["gcc", "r.o", "A.a", "-o", "r"],
           .completed "r"]).events ++ Δ }, .ok false) ∧
      (∀ e ∈ Δ, benign e = true) ∧
      Event.targetUpToDate "r" ∈ Δ :=
  C4_second_build_quiescent
    (Env.mk "gcc"
      [("A", Target.mk "A" .STATIC_LIB "" [] ["a.c"] [] []),
       ("r", Target.mk "r" .EXECUTABLE "" ["A"] ["r.c"] [] [])] [])
    (Target.mk "r" .EXECUTABLE "" ["A"] ["r.c"] [] []) 5 false
    (S.mk [("a.c", 0), ("r.c", 1)] 5 [])
    (S.mk [("r", 8), ("r.o", 7), ("A.a", 6), ("a.o", 5), ("a.c", 0), ("r.c", 1)] 9
      [.checkingDep "A", .compiling "A" "a.c",
       .compileCmd "A" ["gcc", "-c", "a.c", "-o", "a.o"],
       .buildingTarget "A", .linkCmd "A" ["ar", "rcs", "A.a", "a.o"],
       .completed "A", .compiling "r" "r.c",
       .compileCmd "r" ["gcc", "-c", "r.c", "-o", "r.o"],
       .buildingTarget "r", .linkCmd "r" ["gcc", "r.o", "A.a", "-o", "r"],
       .completed "r"]) true
    (by unfold Separated; decide)
    (by unfold ValidS; decide)
    (by rfl)

end Pyld
